import Mathlib

/-!
# A software rasterizer: linear interpolation, lines, triangles, barycentric shading

Shallow embedding of `Sources/main_old.c`.

Conventions of the embedding:

* C `float` values are exact rationals (`ℚ`); a conversion from `float` to an integer type
  truncates toward zero, as in C.
* C `int` values are integers (`Int`).  The cross product of `calcTriangleArea` is computed in
  32-bit `int` and leaves the 32-bit range already for coordinates in `[0, 65535]`: its value
  is reduced to 32 bits (`wrapInt32`, two's complement).  The other `int` expressions of the
  program stay within 32 bits for such coordinates and are not reduced.
* `uint16_t` parameters receive their argument reduced modulo `2^16` (`toU16`), `uint8_t`
  variables receive theirs reduced modulo `2^8`.
* A heap buffer is the list of its cells and `NULL` is `none`.  `malloc` succeeds whenever the
  requested cell count is non-negative and fails (returns `NULL`) when a negative `int` count is
  converted to `size_t`.
* Reading a cell past the end of a buffer yields an unspecified value, the parameter `junk`;
  writing a cell past the end of a buffer leaves the cells of that buffer unchanged.
* `setPixel` is the external pixel sink: a drawing routine is modelled by the sequence of
  `setPixel` calls it makes, together with its boolean return value.
-/

namespace Rasterizer

/-! ## Data model -/

/-- Integer screen coordinate (`Point2D`). -/
structure Point2D where
  x : Int
  y : Int
deriving DecidableEq, Repr

/-- A point with a packed colour (`Vertex2D`). -/
structure Vertex2D where
  pos : Point2D
  color : Nat
deriving DecidableEq, Repr

/-- Buffer of interpolated values with its `size` field (`InterpResult`); `values = none` is the
`NULL` pointer. -/
structure InterpResult where
  values : Option (List ℚ)
  size : Int
deriving DecidableEq

/-- Barycentric weights (`Barycentric`); gamma is `1 - alpha - beta`. -/
structure Barycentric where
  alpha : ℚ
  beta : ℚ
deriving DecidableEq

/-- One call `setPixel(_Display, _Window, P, Color)`. -/
structure PixelCall where
  P : Point2D
  Color : Nat
deriving DecidableEq, Repr

/-- Outcome of a flat drawing routine: the returned `bool` and the `setPixel` calls in order. -/
structure DrawResult where
  ok : Bool
  calls : List PixelCall
deriving DecidableEq

/-! ## Machine conversions and memory access -/

/-- Conversion of an `int` argument to a `uint16_t` parameter. -/
def toU16 (z : Int) : Nat := (z % 65536).toNat

/-- The value of a 32-bit `int` expression whose exact value is `z`: two's complement
arithmetic keeps it reduced to the range from `-2^31` to `2^31 - 1`. -/
def wrapInt32 (z : Int) : Int := (z + 2147483648) % 4294967296 - 2147483648

/-- Conversion of a `float` to `int`: truncation toward zero. -/
def truncToInt (q : ℚ) : Int := Int.tdiv q.num q.den

/-- Conversion of a `float` to `uint8_t`: truncation, kept to the low eight bits. -/
def toU8 (q : ℚ) : Nat := (truncToInt q % 256).toNat

/-- The cells of a buffer (`NULL` has none). -/
def cells (values : Option (List ℚ)) : List ℚ := values.getD []

/-- The C read `r.values[i]`: past the end of the buffer the value read is `junk`. -/
def readAt (r : InterpResult) (junk : ℚ) (i : Nat) : ℚ := (cells r.values).getD i junk

/-- The C write `buf[i] = v` into a buffer of fixed capacity: a write past the end does not
change the buffer's own cells. -/
def writeAt (buf : List ℚ) (i : Nat) (v : ℚ) : List ℚ := buf.set i v

/-- The call `malloc(n * sizeof(float))` for an `int` count `n`: `NULL` for a negative count,
otherwise `n` cells of unspecified content. -/
def mallocFloats (n : Int) (junk : ℚ) : Option (List ℚ) :=
  if n < 0 then none else some (List.replicate n.toNat junk)

/-! ## Colour codec -/

/-- Pack three channels: `(red << 16) | (green << 8) | blue`. -/
def createRGB (red green blue : Nat) : Nat := (red <<< 16) ||| (green <<< 8) ||| blue

/-- Red channel: `(color >> 16) & 0xFF`. -/
def getR (color : Nat) : Nat := (color >>> 16) &&& 0xFF

/-- Green channel: `(color >> 8) & 0xFF`. -/
def getG (color : Nat) : Nat := (color >>> 8) &&& 0xFF

/-- Blue channel: `color & 0xFF`. -/
def getB (color : Nat) : Nat := color &&& 0xFF

/-! ## Linear interpolation -/

/-- The loop of `LinearInterpolation`: `n` iterations, each storing `d` and then adding the
delta `a` to it. -/
def interpLoop (a : ℚ) : Nat → ℚ → List ℚ
  | 0, _ => []
  | n + 1, d => d :: interpLoop a n (d + a)

/-- The function `LinearInterpolation(i0, d0, i1, d1)`; the arguments are `uint16_t` values. -/
def LinearInterpolation (i0 d0 i1 d1 : Nat) : InterpResult :=
  if i0 = i1 then
    ⟨some [(d0 : ℚ)], 1⟩
  else
    let size : Int := (i1 : Int) - (i0 : Int) + 1
    match mallocFloats size 0 with
    | none => ⟨none, size⟩
    | some _ =>
      let a : ℚ := (((d1 : Int) - (d0 : Int) : Int) : ℚ) / (((i1 : Int) - (i0 : Int) : Int) : ℚ)
      ⟨some (interpLoop a size.toNat (d0 : ℚ)), size⟩

/-! ## Sequence concatenation -/

/-- First loop of `concatenateInterpResult`: `for (i = 0; i <= first.size; i++)
result.values[i] = first.values[i]`. -/
def copyFirst (first : InterpResult) (junk : ℚ) (buf : List ℚ) : List ℚ :=
  (List.range (first.size.toNat + 1)).foldl (fun b i => writeAt b i (readAt first junk i)) buf

/-- Second loop of `concatenateInterpResult`: `for (i = 0; i < second.size; i++)
result.values[first.size + i] = second.values[i]`. -/
def copySecond (first second : InterpResult) (junk : ℚ) (buf : List ℚ) : List ℚ :=
  (List.range second.size.toNat).foldl
    (fun b i => writeAt b (first.size.toNat + i) (readAt second junk i)) buf

/-- The function `concatenateInterpResult(first, second, removeLast)`.  Both callers pass
buffers that are not `NULL`, whose `size` fields are therefore non-negative.  The variable
`startIdx` of the source is assigned and never read, so it has no counterpart here. -/
def concatenateInterpResult (first second : InterpResult) (removeLast : Bool) (junk : ℚ) :
    InterpResult :=
  let size : Int := if removeLast then first.size + second.size - 1 else first.size + second.size
  match mallocFloats size junk with
  | none => ⟨none, size⟩
  | some buf => ⟨some (copySecond first second junk (copyFirst first junk buf)), size⟩

/-- One iteration of a copy loop of `concatenateInterpResult`: the cell `src` of `second`
(when `fromSecond`) or of `first` is read and its value is stored into the cell `dst` of the
result. -/
structure CopyStep where
  fromSecond : Bool
  src : Nat
  dst : Nat
deriving DecidableEq, Repr

/-- The iterations of the two copy loops of `concatenateInterpResult`, in order: the first loop
runs `i = 0, ..., first.size` with `result.values[i] = first.values[i]`, the second loop runs
`i = 0, ..., second.size - 1` with `result.values[first.size + i] = second.values[i]`. -/
def copySteps (first second : InterpResult) : List CopyStep :=
  ((List.range (first.size.toNat + 1)).map fun i => (⟨false, i, i⟩ : CopyStep)) ++
    ((List.range second.size.toNat).map fun i => (⟨true, i, first.size.toNat + i⟩ : CopyStep))

/-- The effect of one copy iteration on the result buffer. -/
def runCopyStep (first second : InterpResult) (junk : ℚ) (buf : List ℚ) (s : CopyStep) :
    List ℚ :=
  writeAt buf s.dst (readAt (if s.fromSecond then second else first) junk s.src)

/-- The memory accesses of a call `concatenateInterpResult(first, second, removeLast)`: none
when the allocation of the result fails (the function returns before its loops), otherwise
the iterations of the two copy loops. -/
def concatAccesses (first second : InterpResult) (removeLast : Bool) : List CopyStep :=
  match mallocFloats
    (if removeLast then first.size + second.size - 1 else first.size + second.size) 0 with
  | none => []
  | some _ => copySteps first second

/-! ## Line rasterizer -/

/-- The function `swapPoint2D` on a pair of points. -/
def swapPoint2D (p : Point2D × Point2D) : Point2D × Point2D := (p.2, p.1)

/-- The function `drawLine(P0, P1, Color)`. -/
def drawLine (P0 P1 : Point2D) (Color : Nat) (junk : ℚ) : DrawResult :=
  if (P1.x - P0.x).natAbs > (P1.y - P0.y).natAbs then
    let s := if P0.x > P1.x then swapPoint2D (P0, P1) else (P0, P1)
    let result := LinearInterpolation (toU16 s.1.x) (toU16 s.1.y) (toU16 s.2.x) (toU16 s.2.y)
    match result.values with
    | none => ⟨false, []⟩
    | some _ =>
      ⟨true, (List.range (s.2.x - s.1.x + 1).toNat).map fun (i : Nat) =>
        ⟨⟨s.1.x + (i : Int), truncToInt (readAt result junk i)⟩, Color⟩⟩
  else
    let s := if P0.y > P1.y then swapPoint2D (P0, P1) else (P0, P1)
    let result := LinearInterpolation (toU16 s.1.y) (toU16 s.1.x) (toU16 s.2.y) (toU16 s.2.x)
    match result.values with
    | none => ⟨false, []⟩
    | some _ =>
      ⟨true, (List.range (s.2.y - s.1.y + 1).toNat).map fun (i : Nat) =>
        ⟨⟨truncToInt (readAt result junk i), s.1.y + (i : Int)⟩, Color⟩⟩

/-! ## Triangle scan-converter -/

/-- The three conditional swaps at the start of `drawTriangle`: `(P1,P0)`, `(P2,P0)`,
`(P2,P1)`. -/
def sortByY (P0 P1 P2 : Point2D) : Point2D × Point2D × Point2D :=
  let s1 := if P1.y < P0.y then swapPoint2D (P0, P1) else (P0, P1)
  let s2 := if P2.y < s1.1.y then swapPoint2D (s1.1, P2) else (s1.1, P2)
  let s3 := if s2.2.y < s1.2.y then swapPoint2D (s1.2, s2.2) else (s1.2, s2.2)
  (s2.1, s3.1, s3.2)

/-- The edge `x01` of `drawTriangle`, for points already sorted. -/
def edge01 (P0 P1 : Point2D) : InterpResult :=
  LinearInterpolation (toU16 P0.y) (toU16 P0.x) (toU16 P1.y) (toU16 P1.x)

/-- The long wall `x02` of `drawTriangle`, for points already sorted. -/
def edge02 (P0 P2 : Point2D) : InterpResult :=
  LinearInterpolation (toU16 P0.y) (toU16 P0.x) (toU16 P2.y) (toU16 P2.x)

/-- The edge `x12` of `drawTriangle`, for points already sorted. -/
def edge12 (P1 P2 : Point2D) : InterpResult :=
  LinearInterpolation (toU16 P1.y) (toU16 P1.x) (toU16 P2.y) (toU16 P2.x)

/-- The bent wall `x012 = concatenateInterpResult(x01, x12, true)`. -/
def bentWall (P0 P1 P2 : Point2D) (junk : ℚ) : InterpResult :=
  concatenateInterpResult (edge01 P0 P1) (edge12 P1 P2) true junk

/-- The index `m = floor(x012.size / 2)`. -/
def middleIndex (x012 : InterpResult) : Nat := (Int.tdiv x012.size 2).toNat

/-- Choice of `(x_left, x_right)` by the comparison `x02.values[m] < x012.values[m]`. -/
def chooseWalls (x02 x012 : InterpResult) (junk : ℚ) : InterpResult × InterpResult :=
  if readAt x02 junk (middleIndex x012) < readAt x012 junk (middleIndex x012) then (x02, x012)
  else (x012, x02)

/-- The inner fill loop `for (int x = start; x < right; x++)`: the values of `x` visited;
`fuel` bounds the number of iterations. -/
def scanLoop (right : ℚ) : Nat → Int → List Int
  | 0, _ => []
  | fuel + 1, x => if (x : ℚ) < right then x :: scanLoop right fuel (x + 1) else []

/-- The values of `x` visited on one row: `for (int x = left + 1; x < right; x++)`, with the
fuel the loop needs. -/
def scanRow (left right : ℚ) : List Int :=
  scanLoop right (⌈right⌉ - truncToInt (left + 1)).toNat (truncToInt (left + 1))

/-- The fill loops of `drawTriangle`: for every `y` with `P0.y <= y < P2.y`, the row
`y - P0.y` of both walls is read and one `setPixel` call is made per visited `x`. -/
def fillRows (P0 P2 : Point2D) (x_left x_right : InterpResult) (Color : Nat) (junk : ℚ) :
    List PixelCall :=
  (List.range (P2.y - P0.y).toNat).flatMap fun k =>
    let y : Int := P0.y + (k : Int)
    let row : Nat := (y - P0.y).toNat
    (scanRow (readAt x_left junk row) (readAt x_right junk row)).map fun x => ⟨⟨x, y⟩, Color⟩

/-- The body of `drawTriangle` after the sort. -/
def drawSorted (P0 P1 P2 : Point2D) (Color : Nat) (junk : ℚ) : DrawResult :=
  let x01 := edge01 P0 P1
  let x02 := edge02 P0 P2
  let x12 := edge12 P1 P2
  if x01.values.isNone || x02.values.isNone || x12.values.isNone then ⟨false, []⟩
  else
    let x012 := concatenateInterpResult x01 x12 true junk
    if x012.values.isNone then ⟨false, []⟩
    else
      let w := chooseWalls x02 x012 junk
      ⟨true, fillRows P0 P2 w.1 w.2 Color junk⟩

/-- The function `drawTriangle(P0, P1, P2, Color)`. -/
def drawTriangle (P0 P1 P2 : Point2D) (Color : Nat) (junk : ℚ) : DrawResult :=
  let s := sortByY P0 P1 P2
  drawSorted s.1 s.2.1 s.2.2 Color junk

/-- The walls `(x_left, x_right)` that `drawTriangle` fills between. -/
def triangleWalls (P0 P1 P2 : Point2D) (junk : ℚ) : InterpResult × InterpResult :=
  let s := sortByY P0 P1 P2
  chooseWalls (edge02 s.1 s.2.2) (bentWall s.1 s.2.1 s.2.2 junk) junk

/-! ## Barycentric shader -/

/-- The function `calcTriangleArea(P0, P1, P2)`: the cross product is computed in 32-bit
`int`, converted to `float` and halved. -/
def calcTriangleArea (P0 P1 P2 : Point2D) : ℚ :=
  ((wrapInt32 ((P1.x - P0.x) * (P2.y - P0.y) - (P1.y - P0.y) * (P2.x - P0.x)) : Int) : ℚ) / 2

/-- A `float` division: the quotient is undefined (`none`) when the divisor is zero. -/
def fdiv (a b : ℚ) : Option ℚ := if b = 0 then none else some (a / b)

/-- The function `calcBarycentricCoords(p, a, b, c)`; the two divisions by the area of
`(a, b, c)` are undefined when that area is zero. -/
def calcBarycentricCoords (p a b c : Point2D) : Option Barycentric :=
  let abc_area := calcTriangleArea a b c
  let pbc_area := calcTriangleArea p b c
  let pca_area := calcTriangleArea p c a
  match fdiv pbc_area abc_area, fdiv pca_area abc_area with
  | some alpha, some beta => some ⟨alpha, beta⟩
  | _, _ => none

/-- One call `setPixel(_Display, _Window, point, createRGB(r, g, b))` of the shaded fill;
the colour is `none` when it is computed from an undefined quotient. -/
structure ShadedCall where
  P : Point2D
  Color : Option Nat
deriving DecidableEq, Repr

/-- Outcome of `drawGradientTriangle`: the returned `bool`, the divisors of the divisions
`1.0f / (v0x * v1y - v1x * v0y)` it performed, and its `setPixel` calls in order. -/
structure GradientResult where
  ok : Bool
  divisors : List ℚ
  calls : List ShadedCall
deriving DecidableEq

/-- The function `swapVertex2D` on a pair of vertices. -/
def swapVertex2D (p : Vertex2D × Vertex2D) : Vertex2D × Vertex2D := (p.2, p.1)

/-- The three conditional swaps at the start of `drawGradientTriangle`. -/
def sortVerticesByY (V0 V1 V2 : Vertex2D) : Vertex2D × Vertex2D × Vertex2D :=
  let s1 := if V1.pos.y < V0.pos.y then swapVertex2D (V0, V1) else (V0, V1)
  let s2 := if V2.pos.y < s1.1.pos.y then swapVertex2D (s1.1, V2) else (s1.1, V2)
  let s3 := if s2.2.pos.y < s1.2.pos.y then swapVertex2D (s1.2, s2.2) else (s1.2, s2.2)
  (s2.1, s3.1, s3.2)

/-- The divisor `v0x * v1y - v1x * v0y` of `drawGradientTriangle`, for sorted vertices, in
exact arithmetic: the six coordinates are converted to `float` first, so the source computes
the differences and products in `float`, which the embedding takes as exact rationals. -/
def gradientDivisor (V0 V1 V2 : Vertex2D) : ℚ :=
  let x0 : ℚ := V0.pos.x
  let y0 : ℚ := V0.pos.y
  let x1 : ℚ := V1.pos.x
  let y1 : ℚ := V1.pos.y
  let x2 : ℚ := V2.pos.x
  let y2 : ℚ := V2.pos.y
  let v0x := x1 - x0
  let v0y := y1 - y0
  let v1x := x2 - x0
  let v1y := y2 - y0
  v0x * v1y - v1x * v0y

/-- The weights `(alpha, beta)` of the inner loop of `drawGradientTriangle` at the pixel
`(x, y)`, for sorted vertices and the precomputed `denom`. -/
def pixelWeights (V0 V1 V2 : Vertex2D) (denom : ℚ) (x y : Int) : ℚ × ℚ :=
  let x0 : ℚ := V0.pos.x
  let y0 : ℚ := V0.pos.y
  let x1 : ℚ := V1.pos.x
  let y1 : ℚ := V1.pos.y
  let x2 : ℚ := V2.pos.x
  let y2 : ℚ := V2.pos.y
  let v0x := x1 - x0
  let v0y := y1 - y0
  let v1x := x2 - x0
  let v1y := y2 - y0
  let px : ℚ := (x : ℚ) - x0
  let py : ℚ := (y : ℚ) - y0
  ((px * v1y - py * v1x) * denom, (py * v0x - px * v0y) * denom)

/-- The blended channels `(r, g, b)` of the inner loop, before their conversion to
`uint8_t`. -/
def blendChannels (V0 V1 V2 : Vertex2D) (denom : ℚ) (x y : Int) : ℚ × ℚ × ℚ :=
  let alpha := (pixelWeights V0 V1 V2 denom x y).1
  let beta := (pixelWeights V0 V1 V2 denom x y).2
  (alpha * getR V0.color + beta * getR V1.color + (1 - alpha - beta) * getR V2.color,
   alpha * getG V0.color + beta * getG V1.color + (1 - alpha - beta) * getG V2.color,
   alpha * getB V0.color + beta * getB V1.color + (1 - alpha - beta) * getB V2.color)

/-- The colour `createRGB(r, g, b)` that the inner loop passes to `setPixel` at `(x, y)`. -/
def shadePixel (V0 V1 V2 : Vertex2D) (denom : ℚ) (x y : Int) : Nat :=
  let c := blendChannels V0 V1 V2 denom x y
  createRGB (toU8 c.1) (toU8 c.2.1) (toU8 c.2.2)

/-- The fill loops of `drawGradientTriangle`. -/
def shadeRows (V0 V1 V2 : Vertex2D) (denom : Option ℚ) (x_left x_right : InterpResult)
    (junk : ℚ) : List ShadedCall :=
  (List.range (V2.pos.y - V0.pos.y).toNat).flatMap fun k =>
    let y : Int := V0.pos.y + (k : Int)
    let row : Nat := (y - V0.pos.y).toNat
    (scanRow (readAt x_left junk row) (readAt x_right junk row)).map fun x =>
      ⟨⟨x, y⟩, denom.map fun d => shadePixel V0 V1 V2 d x y⟩

/-- The body of `drawGradientTriangle` after the sort. -/
def shadeSorted (V0 V1 V2 : Vertex2D) (junk : ℚ) : GradientResult :=
  let x01 := LinearInterpolation (toU16 V0.pos.y) (toU16 V0.pos.x) (toU16 V1.pos.y) (toU16 V1.pos.x)
  let x02 := LinearInterpolation (toU16 V0.pos.y) (toU16 V0.pos.x) (toU16 V2.pos.y) (toU16 V2.pos.x)
  let x12 := LinearInterpolation (toU16 V1.pos.y) (toU16 V1.pos.x) (toU16 V2.pos.y) (toU16 V2.pos.x)
  if x01.values.isNone || x02.values.isNone || x12.values.isNone then ⟨false, [], []⟩
  else
    let x012 := concatenateInterpResult x01 x12 true junk
    if x012.values.isNone then ⟨false, [], []⟩
    else
      let w := chooseWalls x02 x012 junk
      let divisor := gradientDivisor V0 V1 V2
      let denom := fdiv 1 divisor
      ⟨true, [divisor], shadeRows V0 V1 V2 denom w.1 w.2 junk⟩

/-- The function `drawGradientTriangle(V0, V1, V2)`. -/
def drawGradientTriangle (V0 V1 V2 : Vertex2D) (junk : ℚ) : GradientResult :=
  let s := sortVerticesByY V0 V1 V2
  shadeSorted s.1 s.2.1 s.2.2 junk

/-! ## Reference definitions taken from the specification -/

/-- The closed form of the specification for the interpolated sequence: element `k` is
`d0 + k * a` with `a = (d1 - d0) / (i1 - i0)`, for `k = 0, ..., i1 - i0`. -/
def interpolateClosedForm (i0 d0 i1 d1 : Nat) : List ℚ :=
  (List.range (i1 - i0 + 1)).map fun (k : Nat) =>
    (d0 : ℚ) + (k : ℚ) * (((d1 : ℚ) - (d0 : ℚ)) / ((i1 : ℚ) - (i0 : ℚ)))

/-- Twice the signed area of the triangle `(a, b, c)`. -/
def signedArea2 (a b c : Point2D) : Int :=
  (b.x - a.x) * (c.y - a.y) - (b.y - a.y) * (c.x - a.x)

/-- An integer that a 32-bit `int` holds: the cross product of `calcTriangleArea` is computed
without overflow when its exact value is such an integer. -/
def fitsInt32 (z : Int) : Prop := -2147483648 ≤ z ∧ z ≤ 2147483647

instance (z : Int) : Decidable (fitsInt32 z) := by unfold fitsInt32; infer_instance

/-- A point with both coordinates in `[0, 32767]`. -/
def smallCoords (P : Point2D) : Prop := 0 ≤ P.x ∧ P.x ≤ 32767 ∧ 0 ≤ P.y ∧ P.y ≤ 32767

instance (P : Point2D) : Decidable (smallCoords P) := by unfold smallCoords; infer_instance

/-- A coordinate that a `uint16_t` holds unchanged. -/
def inRange (P : Point2D) : Prop := 0 ≤ P.x ∧ P.x ≤ 65535 ∧ 0 ≤ P.y ∧ P.y ≤ 65535

instance (P : Point2D) : Decidable (inRange P) := by unfold inRange; infer_instance

/-- An integer point lies strictly inside the triangle `(a, b, c)`: the three signed areas
`(p, a, b)`, `(p, b, c)`, `(p, c, a)` are all positive or all negative. -/
def strictlyInside (a b c p : Point2D) : Prop :=
  (0 < signedArea2 p a b ∧ 0 < signedArea2 p b c ∧ 0 < signedArea2 p c a) ∨
  (signedArea2 p a b < 0 ∧ signedArea2 p b c < 0 ∧ signedArea2 p c a < 0)

instance (a b c p : Point2D) : Decidable (strictlyInside a b c p) := by
  unfold strictlyInside; infer_instance

/-- The order in which a scan visits pixels: top-to-bottom, then left-to-right (the
lexicographic order on `(y, x)`). -/
def scanBefore (p q : Point2D) : Prop := p.y < q.y ∨ (p.y = q.y ∧ p.x < q.x)

instance (p q : Point2D) : Decidable (scanBefore p q) := by unfold scanBefore; infer_instance

/-- An integer point lies in the closed triangle `(a, b, c)`: the three signed areas
`(p, a, b)`, `(p, b, c)`, `(p, c, a)` are all non-negative or all non-positive. -/
def insideClosed (a b c p : Point2D) : Prop :=
  (0 ≤ signedArea2 p a b ∧ 0 ≤ signedArea2 p b c ∧ 0 ≤ signedArea2 p c a) ∨
  (signedArea2 p a b ≤ 0 ∧ signedArea2 p b c ≤ 0 ∧ signedArea2 p c a ≤ 0)

instance (a b c p : Point2D) : Decidable (insideClosed a b c p) := by
  unfold insideClosed; infer_instance

/-! ## Auxiliary definitions for the proofs -/

/-- The calls of one branch of `drawLine` once the swap is resolved: `a0..a1` is the range of
the major coordinate, `b0`, `b1` are the minor coordinates of the two ends, `base` is the first
value of the loop variable and `mk major minor` builds the point. -/
def lineCalls (mk : Int → Int → Point2D) (base : Int) (a0 b0 a1 b1 : Nat) (Color : Nat)
    (junk : ℚ) : List PixelCall :=
  (List.range (a1 - a0 + 1)).map fun (i : Nat) =>
    ⟨mk (base + (i : Int)) (truncToInt (readAt (LinearInterpolation a0 b0 a1 b1) junk i)), Color⟩

/-- The point with the given `y` and `x`, for the y-major branch of `drawLine`. -/
def pointYX (y x : Int) : Point2D := ⟨x, y⟩

/-! ## Linear interpolation: lemmas -/

theorem interpLoop_length (a : ℚ) (n : Nat) (d : ℚ) : (interpLoop a n d).length = n := by
  induction n generalizing d with
  | zero => rfl
  | succ n ih => simp [interpLoop, ih]

theorem interpLoop_eq_map (a : ℚ) (n : Nat) (d : ℚ) :
    interpLoop a n d = (List.range n).map fun (k : Nat) => d + (k : ℚ) * a := by
  induction n generalizing d with
  | zero => rfl
  | succ n ih =>
    rw [interpLoop, ih, List.range_succ_eq_map, List.map_cons, List.map_map]
    simp only [Nat.cast_zero, zero_mul, add_zero, List.cons.injEq, true_and]
    apply List.map_congr_left
    intro k _
    simp only [Function.comp_apply, Nat.succ_eq_add_one, Nat.cast_add, Nat.cast_one]
    ring

theorem interpLoop_getD (a : ℚ) (n : Nat) (d junk : ℚ) (k : Nat) (hk : k < n) :
    (interpLoop a n d).getD k junk = d + (k : ℚ) * a := by
  rw [interpLoop_eq_map, List.getD_eq_getElem?_getD, List.getElem?_map,
    List.getElem?_range hk]
  rfl

/-- What `LinearInterpolation` returns when `i0 < i1`. -/
theorem LinearInterpolation_of_lt (i0 d0 i1 d1 : Nat) (h : i0 < i1) :
    LinearInterpolation i0 d0 i1 d1 =
      ⟨some (interpLoop ((((d1 : Int) - (d0 : Int) : Int) : ℚ) / (((i1 : Int) - (i0 : Int) : Int)
          : ℚ))
        (i1 - i0 + 1) (d0 : ℚ)), ((i1 - i0 + 1 : Nat) : Int)⟩ := by
  have hne : i0 ≠ i1 := Nat.ne_of_lt h
  have hsz : ¬ ((i1 : Int) - (i0 : Int) + 1 < 0) := by omega
  have htn : ((i1 : Int) - (i0 : Int) + 1).toNat = i1 - i0 + 1 := by omega
  have hcast : (((i1 - i0 + 1 : Nat)) : Int) = (i1 : Int) - (i0 : Int) + 1 := by omega
  simp only [LinearInterpolation, hne, if_false, mallocFloats, hsz, htn, hcast]

/-- What `LinearInterpolation` returns when `i0 = i1`. -/
theorem LinearInterpolation_of_eq (i0 d0 d1 : Nat) :
    LinearInterpolation i0 d0 i0 d1 = ⟨some [(d0 : ℚ)], 1⟩ := by
  simp [LinearInterpolation]

/-- For `i0 <= i1` the buffer is allocated, and it has `i1 - i0 + 1` cells, as the `size` field
says. -/
theorem LinearInterpolation_of_le (i0 d0 i1 d1 : Nat) (h : i0 ≤ i1) :
    ∃ vs, LinearInterpolation i0 d0 i1 d1 = ⟨some vs, ((i1 - i0 + 1 : Nat) : Int)⟩ ∧
      vs.length = i1 - i0 + 1 := by
  rcases Nat.eq_or_lt_of_le h with h | h
  · subst h
    exact ⟨[(d0 : ℚ)], by simp [LinearInterpolation_of_eq], by simp⟩
  · exact ⟨_, LinearInterpolation_of_lt i0 d0 i1 d1 h, interpLoop_length _ _ _⟩

/-- The cell `k` of the interpolated buffer, for `i0 < i1` and `k` within the buffer. -/
theorem LinearInterpolation_readAt (i0 d0 i1 d1 : Nat) (junk : ℚ) (h : i0 < i1) (k : Nat)
    (hk : k ≤ i1 - i0) :
    readAt (LinearInterpolation i0 d0 i1 d1) junk k =
      (d0 : ℚ) + (k : ℚ) * ((d1 : ℚ) - (d0 : ℚ)) / ((i1 : ℚ) - (i0 : ℚ)) := by
  rw [LinearInterpolation_of_lt i0 d0 i1 d1 h]
  simp only [readAt, cells, Option.getD_some]
  rw [interpLoop_getD _ _ _ _ _ (by omega)]
  push_cast
  ring

/-- The first cell of the interpolated buffer is `d0`. -/
theorem LinearInterpolation_readAt_zero (i0 d0 i1 d1 : Nat) (junk : ℚ) (h : i0 ≤ i1) :
    readAt (LinearInterpolation i0 d0 i1 d1) junk 0 = (d0 : ℚ) := by
  rcases Nat.eq_or_lt_of_le h with h | h
  · subst h
    simp [LinearInterpolation_of_eq, readAt, cells]
  · rw [LinearInterpolation_readAt i0 d0 i1 d1 junk h 0 (Nat.zero_le _)]
    simp

/-- The last cell of the interpolated buffer is `d1`, for `i0 < i1`. -/
theorem LinearInterpolation_readAt_last (i0 d0 i1 d1 : Nat) (junk : ℚ) (h : i0 < i1) :
    readAt (LinearInterpolation i0 d0 i1 d1) junk (i1 - i0) = (d1 : ℚ) := by
  rw [LinearInterpolation_readAt i0 d0 i1 d1 junk h (i1 - i0) le_rfl]
  have hden : (i1 : ℚ) - (i0 : ℚ) ≠ 0 := by
    have : (i0 : ℚ) < (i1 : ℚ) := by exact_mod_cast h
    linarith
  rw [Nat.cast_sub (Nat.le_of_lt h)]
  field_simp

/-- A read inside the interpolated buffer does not depend on what lies behind the buffer. -/
theorem LinearInterpolation_readAt_junk (i0 d0 i1 d1 : Nat) (junk junk' : ℚ) (h : i0 ≤ i1)
    (k : Nat) (hk : k ≤ i1 - i0) :
    readAt (LinearInterpolation i0 d0 i1 d1) junk k =
      readAt (LinearInterpolation i0 d0 i1 d1) junk' k := by
  rcases Nat.eq_or_lt_of_le h with h | h
  · subst h
    have hk0 : k = 0 := by omega
    subst hk0
    simp [LinearInterpolation_of_eq, readAt, cells]
  · rw [LinearInterpolation_readAt i0 d0 i1 d1 junk h k hk,
      LinearInterpolation_readAt i0 d0 i1 d1 junk' h k hk]

/-- Truncation of an integer-valued `float` gives that integer. -/
theorem truncToInt_natCast (n : Nat) : truncToInt (n : ℚ) = (n : Int) := by
  simp [truncToInt]

/-! ## Claims on linear interpolation -/

/-- C5, as stated, fails: for `i0 = 2`, `i1 = 0` the `size` field is `-1` and the buffer is
`NULL`, not a sequence of length `|i1 - i0| + 1 = 3`; for `i0 = 1`, `i1 = 0` the size is `0`,
not `2`. -/
theorem LinearInterpolation_length_counterexample :
    LinearInterpolation 2 5 0 7 = ⟨none, -1⟩ ∧
    (LinearInterpolation 2 5 0 7).size ≠ |((0 : Nat) : Int) - ((2 : Nat) : Int)| + 1 ∧
    (LinearInterpolation 1 5 0 7).size = 0 ∧
    (LinearInterpolation 1 5 0 7).size ≠ |((0 : Nat) : Int) - ((1 : Nat) : Int)| + 1 := by
  decide

/-- C5, amended: for `i0 <= i1` the result of `LinearInterpolation(i0, d0, i1, d1)` is an
allocated sequence whose `size` and number of values are `|i1 - i0| + 1`, and when `i0 = i1`
it is the one-element sequence holding `d0`. -/
theorem LinearInterpolation_length (i0 d0 i1 d1 : Nat) (h : i0 ≤ i1) :
    (LinearInterpolation i0 d0 i1 d1).size = |(i1 : Int) - (i0 : Int)| + 1 ∧
    (∃ vs, (LinearInterpolation i0 d0 i1 d1).values = some vs ∧
      ((vs.length : Nat) : Int) = |(i1 : Int) - (i0 : Int)| + 1) ∧
    LinearInterpolation i0 d0 i0 d1 = ⟨some [(d0 : ℚ)], 1⟩ := by
  obtain ⟨vs, hvs, hlen⟩ := LinearInterpolation_of_le i0 d0 i1 d1 h
  have habs : |(i1 : Int) - (i0 : Int)| = (i1 : Int) - (i0 : Int) :=
    abs_of_nonneg (by omega)
  refine ⟨?_, ⟨vs, ?_, ?_⟩, ?_⟩
  · rw [hvs, habs]; show ((i1 - i0 + 1 : Nat) : Int) = _; omega
  · rw [hvs]
  · rw [hlen, habs]; omega
  · exact LinearInterpolation_of_eq i0 d0 d1

/-- The amended C5 at `i0 = 3`, `i1 = 7`. -/
theorem LinearInterpolation_length_witness :
    3 ≤ 7 ∧
    (LinearInterpolation 3 10 7 2).size = |((7 : Nat) : Int) - ((3 : Nat) : Int)| + 1 ∧
    (∃ vs, (LinearInterpolation 3 10 7 2).values = some vs ∧
      ((vs.length : Nat) : Int) = |((7 : Nat) : Int) - ((3 : Nat) : Int)| + 1) ∧
    LinearInterpolation 3 10 3 2 = ⟨some [((10 : Nat) : ℚ)], 1⟩ :=
  ⟨by decide, LinearInterpolation_length 3 10 7 2 (by decide)⟩

/-- C6: for `i0 < i1`, the repeated-addition loop of `LinearInterpolation` produces exactly the
closed form of the specification: the buffer has `i1 - i0 + 1` cells, cell `k` is
`d0 + k * (d1 - d0) / (i1 - i0)` for every `k` in `0..(i1 - i0)`, the first cell is `d0` and
the last cell is `d1`. -/
theorem LinearInterpolation_closed_form (i0 d0 i1 d1 : Nat) (junk : ℚ) (h : i0 < i1) :
    (LinearInterpolation i0 d0 i1 d1).values = some (interpolateClosedForm i0 d0 i1 d1) ∧
    (LinearInterpolation i0 d0 i1 d1).size = (i1 : Int) - (i0 : Int) + 1 ∧
    (∀ k : Nat, k ≤ i1 - i0 →
      readAt (LinearInterpolation i0 d0 i1 d1) junk k =
        (d0 : ℚ) + (k : ℚ) * ((d1 : ℚ) - (d0 : ℚ)) / ((i1 : ℚ) - (i0 : ℚ))) ∧
    readAt (LinearInterpolation i0 d0 i1 d1) junk 0 = (d0 : ℚ) ∧
    readAt (LinearInterpolation i0 d0 i1 d1) junk (i1 - i0) = (d1 : ℚ) := by
  refine ⟨?_, ?_, LinearInterpolation_readAt i0 d0 i1 d1 junk h,
    LinearInterpolation_readAt_zero i0 d0 i1 d1 junk (Nat.le_of_lt h),
    LinearInterpolation_readAt_last i0 d0 i1 d1 junk h⟩
  · rw [LinearInterpolation_of_lt i0 d0 i1 d1 h]
    simp only [interpolateClosedForm, interpLoop_eq_map]
    push_cast
    rfl
  · rw [LinearInterpolation_of_lt i0 d0 i1 d1 h]
    show ((i1 - i0 + 1 : Nat) : Int) = _
    omega

/-- C6 at `i0 = 2`, `d0 = 10`, `i1 = 6`, `d1 = 3`. -/
theorem LinearInterpolation_closed_form_witness :
    2 < 6 ∧
    (LinearInterpolation 2 10 6 3).values = some (interpolateClosedForm 2 10 6 3) ∧
    (LinearInterpolation 2 10 6 3).size = ((6 : Nat) : Int) - ((2 : Nat) : Int) + 1 ∧
    (∀ k : Nat, k ≤ 6 - 2 →
      readAt (LinearInterpolation 2 10 6 3) 9 k =
        ((10 : Nat) : ℚ) + (k : ℚ) * (((3 : Nat) : ℚ) - ((10 : Nat) : ℚ)) /
          (((6 : Nat) : ℚ) - ((2 : Nat) : ℚ))) ∧
    readAt (LinearInterpolation 2 10 6 3) 9 0 = ((10 : Nat) : ℚ) ∧
    readAt (LinearInterpolation 2 10 6 3) 9 (6 - 2) = ((3 : Nat) : ℚ) :=
  ⟨by decide, LinearInterpolation_closed_form 2 10 6 3 9 (by decide)⟩

/-! ## Sequence concatenation: lemmas -/

theorem writeAt_length (buf : List ℚ) (i : Nat) (v : ℚ) : (writeAt buf i v).length = buf.length :=
  List.length_set buf i v

theorem writeAt_getElem? (buf : List ℚ) (i j : Nat) (v : ℚ) :
    (writeAt buf i v)[j]? = if i = j then (if i < buf.length then some v else none) else buf[j]? :=
  List.getElem?_set

theorem writeLoop_length (g : Nat → ℚ) (off n : Nat) (buf : List ℚ) :
    ((List.range n).foldl (fun b i => writeAt b (off + i) (g i)) buf).length = buf.length := by
  induction n with
  | zero => rfl
  | succ n ih =>
    rw [List.range_succ, List.foldl_append, List.foldl_cons, List.foldl_nil, writeAt_length, ih]

/-- A counted loop of writes `buf[off + i] = g i` for `i < n`: every cell of the buffer whose
index lies in `[off, off + n)` holds the value written to it, the others are unchanged. -/
theorem writeLoop_getElem? (g : Nat → ℚ) (off n : Nat) (buf : List ℚ) (j : Nat) :
    ((List.range n).foldl (fun b i => writeAt b (off + i) (g i)) buf)[j]? =
      if off ≤ j ∧ j < off + n ∧ j < buf.length then some (g (j - off)) else buf[j]? := by
  induction n with
  | zero =>
    have h0 : ¬ (off ≤ j ∧ j < off + 0 ∧ j < buf.length) := by omega
    simp only [List.range_zero, List.foldl_nil, h0, if_false]
  | succ n ih =>
    rw [List.range_succ, List.foldl_append, List.foldl_cons, List.foldl_nil, writeAt_getElem?,
      writeLoop_length, ih]
    by_cases h1 : off + n = j
    · subst h1
      by_cases h2 : off + n < buf.length
      · simp [h2]
      · have h4 : ¬ (off ≤ off + n ∧ off + n < off + (n + 1) ∧ off + n < buf.length) := by omega
        rw [if_pos rfl, if_neg h2, if_neg h4, List.getElem?_eq_none (by omega)]
    · simp only [h1, if_false]
      by_cases h3 : off ≤ j ∧ j < off + n ∧ j < buf.length
      · have h4 : off ≤ j ∧ j < off + (n + 1) ∧ j < buf.length := ⟨h3.1, by omega, h3.2.2⟩
        simp only [h3, h4, and_self, if_true]
      · have h4 : ¬ (off ≤ j ∧ j < off + (n + 1) ∧ j < buf.length) := by
          intro h; apply h3; exact ⟨h.1, by omega, h.2.2⟩
        simp only [h3, h4, if_false]

theorem copyFirst_eq (first : InterpResult) (junk : ℚ) (buf : List ℚ) :
    copyFirst first junk buf =
      (List.range (first.size.toNat + 1)).foldl
        (fun b i => writeAt b (0 + i) (readAt first junk i)) buf := by
  simp only [copyFirst, zero_add]

theorem copyFirst_length (first : InterpResult) (junk : ℚ) (buf : List ℚ) :
    (copyFirst first junk buf).length = buf.length := by
  rw [copyFirst_eq, writeLoop_length]

theorem copySecond_length (first second : InterpResult) (junk : ℚ) (buf : List ℚ) :
    (copySecond first second junk buf).length = buf.length :=
  writeLoop_length (fun i => readAt second junk i) first.size.toNat second.size.toNat buf

theorem copyFirst_getElem? (first : InterpResult) (junk : ℚ) (buf : List ℚ) (j : Nat) :
    (copyFirst first junk buf)[j]? =
      if j < first.size.toNat + 1 ∧ j < buf.length then some (readAt first junk j)
      else buf[j]? := by
  rw [copyFirst_eq, writeLoop_getElem?]
  simp only [Nat.zero_le, true_and, zero_add, Nat.sub_zero]

theorem copySecond_getElem? (first second : InterpResult) (junk : ℚ) (buf : List ℚ) (j : Nat) :
    (copySecond first second junk buf)[j]? =
      if first.size.toNat ≤ j ∧ j < first.size.toNat + second.size.toNat ∧ j < buf.length then
        some (readAt second junk (j - first.size.toNat))
      else buf[j]? :=
  writeLoop_getElem? (fun i => readAt second junk i) first.size.toNat second.size.toNat buf j

/-- The `size` field of the result of `concatenateInterpResult`. -/
theorem concatenateInterpResult_size (first second : InterpResult) (removeLast : Bool)
    (junk : ℚ) :
    (concatenateInterpResult first second removeLast junk).size =
      if removeLast then first.size + second.size - 1 else first.size + second.size := by
  simp only [concatenateInterpResult]
  split <;> rfl

/-- The result buffer of `concatenateInterpResult` is allocated with as many cells as its
`size` field says, when that size is not negative. -/
theorem concatenateInterpResult_length (first second : InterpResult) (removeLast : Bool)
    (junk : ℚ)
    (h : 0 ≤ (if removeLast then first.size + second.size - 1 else first.size + second.size)) :
    ∃ vs, (concatenateInterpResult first second removeLast junk).values = some vs ∧
      vs.length =
        (if removeLast then first.size + second.size - 1 else first.size + second.size).toNat := by
  simp only [concatenateInterpResult, mallocFloats, not_lt.mpr h, if_false]
  exact ⟨_, rfl, by rw [copySecond_length, copyFirst_length, List.length_replicate]⟩

/-- The cells that `concatenateInterpResult` returns, for two allocated buffers whose `size`
fields equal their numbers of cells: the first `size` cells of `first` followed by `second`.
With `removeLast` the cell dropped is therefore the LAST cell of `second`, and the seam cell
of `first` stays next to the first cell of `second`. -/
theorem concatenateInterpResult_cells (f s : List ℚ) (removeLast : Bool) (junk : ℚ)
    (h : removeLast = true → 1 ≤ f.length + s.length) :
    concatenateInterpResult ⟨some f, (f.length : Int)⟩ ⟨some s, (s.length : Int)⟩ removeLast junk =
      ⟨some ((f ++ s).take (if removeLast then f.length + s.length - 1 else f.length + s.length)),
        if removeLast then (f.length : Int) + (s.length : Int) - 1
        else (f.length : Int) + (s.length : Int)⟩ := by
  have hsz : ¬ ((if removeLast then (f.length : Int) + (s.length : Int) - 1
      else (f.length : Int) + (s.length : Int)) < 0) := by
    cases removeLast
    · simp; omega
    · have := h rfl
      simp; omega
  have htn : (if removeLast then (f.length : Int) + (s.length : Int) - 1
      else (f.length : Int) + (s.length : Int)).toNat =
      (if removeLast then f.length + s.length - 1 else f.length + s.length) := by
    cases removeLast
    · simp; omega
    · have := h rfl
      simp; omega
  simp only [concatenateInterpResult, mallocFloats, hsz, if_false, htn]
  congr 2
  apply List.ext_getElem?
  intro j
  rw [copySecond_getElem?, copyFirst_length, copyFirst_getElem?]
  simp only [List.length_replicate, List.getElem?_take, List.getElem?_append,
    List.getElem?_replicate, readAt, cells, Option.getD_some, List.getD_eq_getElem?_getD,
    Int.toNat_ofNat]
  by_cases hj : j < (if removeLast then f.length + s.length - 1 else f.length + s.length)
  · simp only [hj, and_true, if_true]
    by_cases hjf : j < f.length
    · have : ¬ f.length ≤ j := by omega
      have hj1 : j < f.length + 1 := by omega
      simp [this, hjf, hj1, List.getElem?_eq_getElem hjf]
    · have hfj : f.length ≤ j := by omega
      have hjs : j < f.length + s.length := by
        cases removeLast
        · simpa using hj
        · simp at hj; omega
      have hjs2 : j - f.length < s.length := by omega
      simp [hfj, hjf, hjs, List.getElem?_eq_getElem hjs2]
  · simp [hj]

/-! ## Claims on sequence concatenation -/

/-- C2, the code at the failing input: joining `[0,1,2]` and `[2,3,4]` with `removeLast` gives
`[0,1,2,2,3]` whatever lies behind the buffers: the seam sample `2` occurs twice and the last
sample `4` of `second` is lost, where the claim says `[0,1,2,3,4]`. -/
theorem concatenateInterpResult_seam_duplicated (junk : ℚ) :
    concatenateInterpResult ⟨some [0, 1, 2], 3⟩ ⟨some [2, 3, 4], 3⟩ true junk =
      ⟨some [0, 1, 2, 2, 3], 5⟩ ∧
    concatenateInterpResult ⟨some [0, 1, 2], 3⟩ ⟨some [2, 3, 4], 3⟩ true junk ≠
      ⟨some ([0, 1, 2] ++ List.tail [2, 3, 4]), 5⟩ := by
  have h := concatenateInterpResult_cells [0, 1, 2] [2, 3, 4] true junk (by simp)
  have h' : concatenateInterpResult ⟨some [0, 1, 2], 3⟩ ⟨some [2, 3, 4], 3⟩ true junk =
      ⟨some [0, 1, 2, 2, 3], 5⟩ := by
    simpa using h
  refine ⟨h', ?_⟩
  rw [h']
  decide

/-! ## The y-sort: lemmas -/

theorem toU16_of_inRange (z : Int) (h0 : 0 ≤ z) (h1 : z ≤ 65535) : ((toU16 z : Nat) : Int) = z := by
  unfold toU16
  omega

theorem sortByY_sorted (P0 P1 P2 : Point2D) :
    (sortByY P0 P1 P2).1.y ≤ (sortByY P0 P1 P2).2.1.y ∧
    (sortByY P0 P1 P2).2.1.y ≤ (sortByY P0 P1 P2).2.2.y := by
  unfold sortByY swapPoint2D
  by_cases a : P1.y < P0.y <;> simp only [a, if_true, if_false]
  · by_cases b : P2.y < P1.y <;> simp only [b, if_true, if_false]
    · by_cases c : P1.y < P0.y <;> simp only [c, if_true, if_false] <;> omega
    · by_cases c : P2.y < P0.y <;> simp only [c, if_true, if_false] <;> omega
  · by_cases b : P2.y < P0.y <;> simp only [b, if_true, if_false]
    · by_cases c : P0.y < P1.y <;> simp only [c, if_true, if_false] <;> omega
    · by_cases c : P2.y < P1.y <;> simp only [c, if_true, if_false] <;> omega

theorem sortByY_inRange (P0 P1 P2 : Point2D) (h0 : inRange P0) (h1 : inRange P1)
    (h2 : inRange P2) :
    inRange (sortByY P0 P1 P2).1 ∧ inRange (sortByY P0 P1 P2).2.1 ∧
      inRange (sortByY P0 P1 P2).2.2 := by
  unfold sortByY swapPoint2D
  by_cases a : P1.y < P0.y <;> simp only [a, if_true, if_false]
  · by_cases b : P2.y < P1.y <;> simp only [b, if_true, if_false]
    · by_cases c : P1.y < P0.y <;> simp only [c, if_true, if_false] <;> exact ⟨by assumption, by
        assumption, by assumption⟩
    · by_cases c : P2.y < P0.y <;> simp only [c, if_true, if_false] <;> exact ⟨by assumption, by
        assumption, by assumption⟩
  · by_cases b : P2.y < P0.y <;> simp only [b, if_true, if_false]
    · by_cases c : P0.y < P1.y <;> simp only [c, if_true, if_false] <;> exact ⟨by assumption, by
        assumption, by assumption⟩
    · by_cases c : P2.y < P1.y <;> simp only [c, if_true, if_false] <;> exact ⟨by assumption, by
        assumption, by assumption⟩

/-! ## The walls of a triangle: lemmas -/

/-- An edge between two in-range points `A`, `B` with `A.y <= B.y` is an allocated buffer with
`B.y - A.y + 1` cells. -/
theorem edge_shape (A B : Point2D) (hA : inRange A) (hB : inRange B) (h : A.y ≤ B.y) :
    ∃ vs, LinearInterpolation (toU16 A.y) (toU16 A.x) (toU16 B.y) (toU16 B.x) =
        ⟨some vs, (vs.length : Int)⟩ ∧ (vs.length : Int) = B.y - A.y + 1 := by
  have hAy := toU16_of_inRange A.y hA.2.2.1 hA.2.2.2
  have hBy := toU16_of_inRange B.y hB.2.2.1 hB.2.2.2
  obtain ⟨vs, hvs, hlen⟩ := LinearInterpolation_of_le (toU16 A.y) (toU16 A.x) (toU16 B.y)
    (toU16 B.x) (by omega)
  refine ⟨vs, ?_, ?_⟩
  · rw [hvs, hlen]
  · rw [hlen]; omega

/-- C10: for three in-range points, after the y-sort of `drawTriangle` the bent wall
`x012 = concatenateInterpResult(x01, x12, true)` and the long wall `x02` are both allocated,
and both have `size` and number of cells `P2.y - P0.y + 1` (the sorted `P0`, `P2`), with no
exception for equal y coordinates. -/
theorem bentWall_same_length (P0 P1 P2 : Point2D) (junk : ℚ) (h0 : inRange P0) (h1 : inRange P1)
    (h2 : inRange P2) :
    (bentWall (sortByY P0 P1 P2).1 (sortByY P0 P1 P2).2.1 (sortByY P0 P1 P2).2.2 junk).size =
      (sortByY P0 P1 P2).2.2.y - (sortByY P0 P1 P2).1.y + 1 ∧
    (edge02 (sortByY P0 P1 P2).1 (sortByY P0 P1 P2).2.2).size =
      (sortByY P0 P1 P2).2.2.y - (sortByY P0 P1 P2).1.y + 1 ∧
    (∃ vs, (bentWall (sortByY P0 P1 P2).1 (sortByY P0 P1 P2).2.1
        (sortByY P0 P1 P2).2.2 junk).values = some vs ∧
      (vs.length : Int) = (sortByY P0 P1 P2).2.2.y - (sortByY P0 P1 P2).1.y + 1) ∧
    (∃ vs, (edge02 (sortByY P0 P1 P2).1 (sortByY P0 P1 P2).2.2).values = some vs ∧
      (vs.length : Int) = (sortByY P0 P1 P2).2.2.y - (sortByY P0 P1 P2).1.y + 1) := by
  obtain ⟨hs1, hs2⟩ := sortByY_sorted P0 P1 P2
  obtain ⟨r0, r1, r2⟩ := sortByY_inRange P0 P1 P2 h0 h1 h2
  generalize (sortByY P0 P1 P2).1 = Q0 at *
  generalize (sortByY P0 P1 P2).2.1 = Q1 at *
  generalize (sortByY P0 P1 P2).2.2 = Q2 at *
  obtain ⟨v01, e01, l01⟩ := edge_shape Q0 Q1 r0 r1 hs1
  obtain ⟨v02, e02, l02⟩ := edge_shape Q0 Q2 r0 r2 (le_trans hs1 hs2)
  obtain ⟨v12, e12, l12⟩ := edge_shape Q1 Q2 r1 r2 hs2
  have hsize : (bentWall Q0 Q1 Q2 junk).size = Q2.y - Q0.y + 1 := by
    rw [bentWall, concatenateInterpResult_size, edge01, edge12, e01, e12]
    simp only [if_true]
    omega
  refine ⟨hsize, ?_, ?_, ?_⟩
  · rw [edge02, e02]; exact l02
  · obtain ⟨vs, hvs, hlen⟩ := concatenateInterpResult_length (edge01 Q0 Q1) (edge12 Q1 Q2) true
      junk (by rw [edge01, edge12, e01, e12]; simp only [if_true]; omega)
    refine ⟨vs, hvs, ?_⟩
    rw [hlen, edge01, edge12, e01, e12]
    simp only [if_true]
    omega
  · exact ⟨v02, by rw [edge02, e02], l02⟩

/-- C10 at the points `(3,7)`, `(0,7)`, `(5,2)`, two of which share their `y`. -/
theorem bentWall_same_length_witness :
    inRange ⟨3, 7⟩ ∧ inRange ⟨0, 7⟩ ∧ inRange ⟨5, 2⟩ ∧
    (bentWall (sortByY ⟨3, 7⟩ ⟨0, 7⟩ ⟨5, 2⟩).1 (sortByY ⟨3, 7⟩ ⟨0, 7⟩ ⟨5, 2⟩).2.1
        (sortByY ⟨3, 7⟩ ⟨0, 7⟩ ⟨5, 2⟩).2.2 0).size =
      (sortByY ⟨3, 7⟩ ⟨0, 7⟩ ⟨5, 2⟩).2.2.y - (sortByY ⟨3, 7⟩ ⟨0, 7⟩ ⟨5, 2⟩).1.y + 1 ∧
    (edge02 (sortByY ⟨3, 7⟩ ⟨0, 7⟩ ⟨5, 2⟩).1 (sortByY ⟨3, 7⟩ ⟨0, 7⟩ ⟨5, 2⟩).2.2).size =
      (sortByY ⟨3, 7⟩ ⟨0, 7⟩ ⟨5, 2⟩).2.2.y - (sortByY ⟨3, 7⟩ ⟨0, 7⟩ ⟨5, 2⟩).1.y + 1 ∧
    (∃ vs, (bentWall (sortByY ⟨3, 7⟩ ⟨0, 7⟩ ⟨5, 2⟩).1 (sortByY ⟨3, 7⟩ ⟨0, 7⟩ ⟨5, 2⟩).2.1
        (sortByY ⟨3, 7⟩ ⟨0, 7⟩ ⟨5, 2⟩).2.2 0).values = some vs ∧
      (vs.length : Int) =
        (sortByY ⟨3, 7⟩ ⟨0, 7⟩ ⟨5, 2⟩).2.2.y - (sortByY ⟨3, 7⟩ ⟨0, 7⟩ ⟨5, 2⟩).1.y + 1) ∧
    (∃ vs, (edge02 (sortByY ⟨3, 7⟩ ⟨0, 7⟩ ⟨5, 2⟩).1 (sortByY ⟨3, 7⟩ ⟨0, 7⟩ ⟨5, 2⟩).2.2).values =
        some vs ∧
      (vs.length : Int) =
        (sortByY ⟨3, 7⟩ ⟨0, 7⟩ ⟨5, 2⟩).2.2.y - (sortByY ⟨3, 7⟩ ⟨0, 7⟩ ⟨5, 2⟩).1.y + 1) :=
  ⟨by decide, by decide, by decide,
    bentWall_same_length ⟨3, 7⟩ ⟨0, 7⟩ ⟨5, 2⟩ 0 (by decide) (by decide) (by decide)⟩

/-! ## Line rasterizer: lemmas -/

theorem lineCalls_length (mk : Int → Int → Point2D) (base : Int) (a0 b0 a1 b1 : Nat)
    (Color : Nat) (junk : ℚ) :
    (lineCalls mk base a0 b0 a1 b1 Color junk).length = a1 - a0 + 1 := by
  simp [lineCalls]

theorem lineCalls_color (mk : Int → Int → Point2D) (base : Int) (a0 b0 a1 b1 : Nat)
    (Color : Nat) (junk : ℚ) :
    ∀ c ∈ lineCalls mk base a0 b0 a1 b1 Color junk, c.Color = Color := by
  intro c hc
  simp only [lineCalls, List.mem_map] at hc
  obtain ⟨i, _, rfl⟩ := hc
  rfl

/-- The first call of a branch of `drawLine` is at the end with the smaller major
coordinate. -/
theorem lineCalls_head (mk : Int → Int → Point2D) (base : Int) (a0 b0 a1 b1 : Nat)
    (Color : Nat) (junk : ℚ) (h : a0 ≤ a1) :
    ((lineCalls mk base a0 b0 a1 b1 Color junk).map fun c => c.P).head? =
      some (mk base (b0 : Int)) := by
  rw [lineCalls, List.map_map, List.head?_map, List.head?_range]
  simp only [Nat.add_one_ne_zero, if_false, Option.map_some', Function.comp_apply,
    Nat.cast_zero, add_zero]
  rw [LinearInterpolation_readAt_zero a0 b0 a1 b1 junk h, truncToInt_natCast]

/-- The last call of a branch of `drawLine` is at the other end. -/
theorem lineCalls_last (mk : Int → Int → Point2D) (base : Int) (a0 b0 a1 b1 : Nat)
    (Color : Nat) (junk : ℚ) (h : a0 ≤ a1) (hends : a0 = a1 → b0 = b1) :
    ((lineCalls mk base a0 b0 a1 b1 Color junk).map fun c => c.P).getLast? =
      some (mk (base + ((a1 - a0 : Nat) : Int)) (b1 : Int)) := by
  rw [lineCalls, List.map_map, List.getLast?_map, List.getLast?_range]
  simp only [Nat.add_one_ne_zero, if_false, Option.map_some', Function.comp_apply,
    Nat.add_sub_cancel]
  rcases Nat.eq_or_lt_of_le h with h' | h'
  · have hb := hends h'
    subst h'
    subst hb
    simp only [Nat.sub_self]
    rw [LinearInterpolation_readAt_zero a0 b0 a0 b0 junk le_rfl, truncToInt_natCast]
  · rw [LinearInterpolation_readAt_last a0 b0 a1 b1 junk h', truncToInt_natCast]

/-- The calls of a branch of `drawLine` depend neither on what lies behind the interpolation
buffer nor, for the points, on the colour. -/
theorem lineCalls_points_junk (mk : Int → Int → Point2D) (base : Int) (a0 b0 a1 b1 : Nat)
    (Color Color' : Nat) (junk junk' : ℚ) (h : a0 ≤ a1) :
    ((lineCalls mk base a0 b0 a1 b1 Color junk).map fun c => c.P) =
      ((lineCalls mk base a0 b0 a1 b1 Color' junk').map fun c => c.P) := by
  simp only [lineCalls, List.map_map]
  apply List.map_congr_left
  intro i hi
  have hi' : i ≤ a1 - a0 := by
    have := List.mem_range.mp hi
    omega
  simp only [Function.comp_apply]
  rw [LinearInterpolation_readAt_junk a0 b0 a1 b1 junk junk' h i hi']

/-- The x-major branch of `drawLine`, called with the left end first. -/
theorem drawLine_xmajor (A B : Point2D) (Color : Nat) (junk : ℚ) (hA : inRange A)
    (hB : inRange B) (hx : A.x < B.x) (hm : (B.y - A.y).natAbs < (B.x - A.x).natAbs) :
    drawLine A B Color junk =
      ⟨true, lineCalls Point2D.mk A.x (toU16 A.x) (toU16 A.y) (toU16 B.x) (toU16 B.y)
        Color junk⟩ := by
  have hAx := toU16_of_inRange A.x hA.1 hA.2.1
  have hBx := toU16_of_inRange B.x hB.1 hB.2.1
  have hcond : (B.x - A.x).natAbs > (B.y - A.y).natAbs := hm
  have hnsw : ¬ (A.x > B.x) := by omega
  obtain ⟨vs, hvs, _⟩ := LinearInterpolation_of_le (toU16 A.x) (toU16 A.y) (toU16 B.x)
    (toU16 B.y) (by omega)
  have hv : (LinearInterpolation (toU16 A.x) (toU16 A.y) (toU16 B.x) (toU16 B.y)).values =
      some vs := by rw [hvs]
  have hn : (B.x - A.x + 1).toNat = toU16 B.x - toU16 A.x + 1 := by omega
  simp only [drawLine, hcond, if_true, hnsw, if_false, hv, hn, lineCalls]

/-- The x-major branch of `drawLine`, called with the right end first: the swap gives the
same calls. -/
theorem drawLine_xmajor_swapped (A B : Point2D) (Color : Nat) (junk : ℚ) (hA : inRange A)
    (hB : inRange B) (hx : A.x < B.x) (hm : (B.y - A.y).natAbs < (B.x - A.x).natAbs) :
    drawLine B A Color junk =
      ⟨true, lineCalls Point2D.mk A.x (toU16 A.x) (toU16 A.y) (toU16 B.x) (toU16 B.y)
        Color junk⟩ := by
  have hAx := toU16_of_inRange A.x hA.1 hA.2.1
  have hBx := toU16_of_inRange B.x hB.1 hB.2.1
  have hcond : (A.x - B.x).natAbs > (A.y - B.y).natAbs := by omega
  have hsw : B.x > A.x := hx
  obtain ⟨vs, hvs, _⟩ := LinearInterpolation_of_le (toU16 A.x) (toU16 A.y) (toU16 B.x)
    (toU16 B.y) (by omega)
  have hv : (LinearInterpolation (toU16 A.x) (toU16 A.y) (toU16 B.x) (toU16 B.y)).values =
      some vs := by rw [hvs]
  have hn : (B.x - A.x + 1).toNat = toU16 B.x - toU16 A.x + 1 := by omega
  simp only [drawLine, hcond, if_true, hsw, swapPoint2D, hv, hn, lineCalls]

/-- The y-major branch of `drawLine`, called with the upper end first. -/
theorem drawLine_ymajor (A B : Point2D) (Color : Nat) (junk : ℚ) (hA : inRange A)
    (hB : inRange B) (hy : A.y ≤ B.y) (hm : (B.x - A.x).natAbs ≤ (B.y - A.y).natAbs) :
    drawLine A B Color junk =
      ⟨true, lineCalls pointYX A.y (toU16 A.y) (toU16 A.x) (toU16 B.y) (toU16 B.x)
        Color junk⟩ := by
  have hAy := toU16_of_inRange A.y hA.2.2.1 hA.2.2.2
  have hBy := toU16_of_inRange B.y hB.2.2.1 hB.2.2.2
  have hcond : ¬ ((B.x - A.x).natAbs > (B.y - A.y).natAbs) := by omega
  have hnsw : ¬ (A.y > B.y) := by omega
  obtain ⟨vs, hvs, _⟩ := LinearInterpolation_of_le (toU16 A.y) (toU16 A.x) (toU16 B.y)
    (toU16 B.x) (by omega)
  have hv : (LinearInterpolation (toU16 A.y) (toU16 A.x) (toU16 B.y) (toU16 B.x)).values =
      some vs := by rw [hvs]
  have hn : (B.y - A.y + 1).toNat = toU16 B.y - toU16 A.y + 1 := by omega
  simp only [drawLine, hcond, if_false, hnsw, hv, hn, lineCalls, pointYX]

/-- The y-major branch of `drawLine`, called with the lower end first: the swap gives the
same calls. -/
theorem drawLine_ymajor_swapped (A B : Point2D) (Color : Nat) (junk : ℚ) (hA : inRange A)
    (hB : inRange B) (hy : A.y < B.y) (hm : (B.x - A.x).natAbs ≤ (B.y - A.y).natAbs) :
    drawLine B A Color junk =
      ⟨true, lineCalls pointYX A.y (toU16 A.y) (toU16 A.x) (toU16 B.y) (toU16 B.x)
        Color junk⟩ := by
  have hAy := toU16_of_inRange A.y hA.2.2.1 hA.2.2.2
  have hBy := toU16_of_inRange B.y hB.2.2.1 hB.2.2.2
  have hcond : ¬ ((A.x - B.x).natAbs > (A.y - B.y).natAbs) := by omega
  have hsw : B.y > A.y := hy
  obtain ⟨vs, hvs, _⟩ := LinearInterpolation_of_le (toU16 A.y) (toU16 A.x) (toU16 B.y)
    (toU16 B.x) (by omega)
  have hv : (LinearInterpolation (toU16 A.y) (toU16 A.x) (toU16 B.y) (toU16 B.x)).values =
      some vs := by rw [hvs]
  have hn : (B.y - A.y + 1).toNat = toU16 B.y - toU16 A.y + 1 := by omega
  simp only [drawLine, hcond, if_false, hsw, if_true, swapPoint2D, hv, hn, lineCalls, pointYX]

theorem lineCalls_major (mk : Int → Int → Point2D) (proj : Point2D → Int)
    (hproj : ∀ a b, proj (mk a b) = a) (base : Int) (a0 b0 a1 b1 : Nat) (Color : Nat)
    (junk : ℚ) :
    ((lineCalls mk base a0 b0 a1 b1 Color junk).map fun c => proj c.P) =
      (List.range (a1 - a0 + 1)).map fun (k : Nat) => base + (k : Int) := by
  simp only [lineCalls, List.map_map]
  apply List.map_congr_left
  intro i _
  simp only [Function.comp_apply, hproj]

theorem lineCalls_nodup (mk : Int → Int → Point2D) (proj : Point2D → Int)
    (hproj : ∀ a b, proj (mk a b) = a) (base : Int) (a0 b0 a1 b1 : Nat) (Color : Nat)
    (junk : ℚ) :
    ((lineCalls mk base a0 b0 a1 b1 Color junk).map fun c => c.P).Nodup := by
  apply List.Nodup.of_map proj
  rw [List.map_map]
  have h := lineCalls_major mk proj hproj base a0 b0 a1 b1 Color junk
  have h' : (List.map (proj ∘ fun c => c.P) (lineCalls mk base a0 b0 a1 b1 Color junk)) =
      (List.range (a1 - a0 + 1)).map fun (k : Nat) => base + (k : Int) := h
  rw [h']
  apply List.Nodup.map _ (List.nodup_range _)
  intro i j hij
  simpa using hij

/-- Everything the x-major branch of `drawLine` does, for the ends `A` (left) and `B`
(right). -/
theorem lineCalls_xmajor_facts (A B : Point2D) (Color : Nat) (junk : ℚ) (hA : inRange A)
    (hB : inRange B) (hx : A.x < B.x) :
    (lineCalls Point2D.mk A.x (toU16 A.x) (toU16 A.y) (toU16 B.x) (toU16 B.y)
      Color junk).length = (B.x - A.x).natAbs + 1 ∧
    (∀ c ∈ lineCalls Point2D.mk A.x (toU16 A.x) (toU16 A.y) (toU16 B.x) (toU16 B.y)
      Color junk, c.Color = Color) ∧
    ((lineCalls Point2D.mk A.x (toU16 A.x) (toU16 A.y) (toU16 B.x) (toU16 B.y)
      Color junk).map fun c => c.P).Nodup ∧
    ((lineCalls Point2D.mk A.x (toU16 A.x) (toU16 A.y) (toU16 B.x) (toU16 B.y)
      Color junk).map fun c => c.P.x) =
        ((List.range ((B.x - A.x).natAbs + 1)).map fun (k : Nat) => A.x + (k : Int)) ∧
    ((lineCalls Point2D.mk A.x (toU16 A.x) (toU16 A.y) (toU16 B.x) (toU16 B.y)
      Color junk).map fun c => c.P).head? = some A ∧
    ((lineCalls Point2D.mk A.x (toU16 A.x) (toU16 A.y) (toU16 B.x) (toU16 B.y)
      Color junk).map fun c => c.P).getLast? = some B := by
  have hAx := toU16_of_inRange A.x hA.1 hA.2.1
  have hBx := toU16_of_inRange B.x hB.1 hB.2.1
  have hAy := toU16_of_inRange A.y hA.2.2.1 hA.2.2.2
  have hBy := toU16_of_inRange B.y hB.2.2.1 hB.2.2.2
  have hle : toU16 A.x ≤ toU16 B.x := by omega
  have hn : toU16 B.x - toU16 A.x = (B.x - A.x).natAbs := by omega
  refine ⟨?_, lineCalls_color _ _ _ _ _ _ _ _, ?_, ?_, ?_, ?_⟩
  · rw [lineCalls_length, hn]
  · exact lineCalls_nodup Point2D.mk Point2D.x (fun _ _ => rfl) _ _ _ _ _ _ _
  · rw [← hn]
    exact lineCalls_major Point2D.mk Point2D.x (fun _ _ => rfl) _ _ _ _ _ _ _
  · rw [lineCalls_head _ _ _ _ _ _ _ _ hle, hAy]
  · rw [lineCalls_last _ _ _ _ _ _ _ _ hle (by omega), hBy]
    have : A.x + ((toU16 B.x - toU16 A.x : Nat) : Int) = B.x := by omega
    rw [this]

/-- Everything the y-major branch of `drawLine` does, for the ends `A` (upper) and `B`
(lower). -/
theorem lineCalls_ymajor_facts (A B : Point2D) (Color : Nat) (junk : ℚ) (hA : inRange A)
    (hB : inRange B) (hy : A.y ≤ B.y) (hm : (B.x - A.x).natAbs ≤ (B.y - A.y).natAbs) :
    (lineCalls pointYX A.y (toU16 A.y) (toU16 A.x) (toU16 B.y) (toU16 B.x)
      Color junk).length = (B.y - A.y).natAbs + 1 ∧
    (∀ c ∈ lineCalls pointYX A.y (toU16 A.y) (toU16 A.x) (toU16 B.y) (toU16 B.x)
      Color junk, c.Color = Color) ∧
    ((lineCalls pointYX A.y (toU16 A.y) (toU16 A.x) (toU16 B.y) (toU16 B.x)
      Color junk).map fun c => c.P).Nodup ∧
    ((lineCalls pointYX A.y (toU16 A.y) (toU16 A.x) (toU16 B.y) (toU16 B.x)
      Color junk).map fun c => c.P.y) =
        ((List.range ((B.y - A.y).natAbs + 1)).map fun (k : Nat) => A.y + (k : Int)) ∧
    ((lineCalls pointYX A.y (toU16 A.y) (toU16 A.x) (toU16 B.y) (toU16 B.x)
      Color junk).map fun c => c.P).head? = some A ∧
    ((lineCalls pointYX A.y (toU16 A.y) (toU16 A.x) (toU16 B.y) (toU16 B.x)
      Color junk).map fun c => c.P).getLast? = some B := by
  have hAx := toU16_of_inRange A.x hA.1 hA.2.1
  have hBx := toU16_of_inRange B.x hB.1 hB.2.1
  have hAy := toU16_of_inRange A.y hA.2.2.1 hA.2.2.2
  have hBy := toU16_of_inRange B.y hB.2.2.1 hB.2.2.2
  have hle : toU16 A.y ≤ toU16 B.y := by omega
  have hn : toU16 B.y - toU16 A.y = (B.y - A.y).natAbs := by omega
  refine ⟨?_, lineCalls_color _ _ _ _ _ _ _ _, ?_, ?_, ?_, ?_⟩
  · rw [lineCalls_length, hn]
  · exact lineCalls_nodup pointYX Point2D.y (fun _ _ => rfl) _ _ _ _ _ _ _
  · rw [← hn]
    exact lineCalls_major pointYX Point2D.y (fun _ _ => rfl) _ _ _ _ _ _ _
  · rw [lineCalls_head _ _ _ _ _ _ _ _ hle, hAx]
    rfl
  · rw [lineCalls_last _ _ _ _ _ _ _ _ hle (by omega), hBx]
    have : A.y + ((toU16 B.y - toU16 A.y : Nat) : Int) = B.y := by omega
    rw [this]
    rfl

/-- The points that `drawLine` passes to `setPixel` depend neither on the colour nor on what
lies behind the interpolation buffer. -/
theorem drawLine_points_junk (P0 P1 : Point2D) (Color Color' : Nat) (junk junk' : ℚ)
    (h0 : inRange P0) (h1 : inRange P1) :
    ((drawLine P0 P1 Color junk).calls.map fun c => c.P) =
      ((drawLine P0 P1 Color' junk').calls.map fun c => c.P) := by
  have h0x := toU16_of_inRange P0.x h0.1 h0.2.1
  have h1x := toU16_of_inRange P1.x h1.1 h1.2.1
  have h0y := toU16_of_inRange P0.y h0.2.2.1 h0.2.2.2
  have h1y := toU16_of_inRange P1.y h1.2.2.1 h1.2.2.2
  by_cases hm : (P1.y - P0.y).natAbs < (P1.x - P0.x).natAbs
  · rcases lt_or_gt_of_ne (show P0.x ≠ P1.x by omega) with hx | hx
    · rw [drawLine_xmajor P0 P1 Color junk h0 h1 hx hm,
        drawLine_xmajor P0 P1 Color' junk' h0 h1 hx hm]
      exact lineCalls_points_junk _ _ _ _ _ _ _ _ _ _ (by omega)
    · rw [drawLine_xmajor_swapped P1 P0 Color junk h1 h0 hx (by omega),
        drawLine_xmajor_swapped P1 P0 Color' junk' h1 h0 hx (by omega)]
      exact lineCalls_points_junk _ _ _ _ _ _ _ _ _ _ (by omega)
  · rcases le_or_lt P0.y P1.y with hy | hy
    · rw [drawLine_ymajor P0 P1 Color junk h0 h1 hy (by omega),
        drawLine_ymajor P0 P1 Color' junk' h0 h1 hy (by omega)]
      exact lineCalls_points_junk _ _ _ _ _ _ _ _ _ _ (by omega)
    · rw [drawLine_ymajor_swapped P1 P0 Color junk h1 h0 hy (by omega),
        drawLine_ymajor_swapped P1 P0 Color' junk' h1 h0 hy (by omega)]
      exact lineCalls_points_junk _ _ _ _ _ _ _ _ _ _ (by omega)

/-! ## Claim on the line rasterizer -/

/-- C4: for two in-range points, `drawLine` returns `true` and calls `setPixel` exactly
`max(|dx|,|dy|) + 1` times with the given colour and pairwise distinct points.  When
`|dx| > |dy|` (x-major branch) the x coordinates of the calls are the integers from
`min(P0.x,P1.x)` upward, one each, in increasing order; otherwise (y-major branch, ties
included) the y coordinates are the integers from `min(P0.y,P1.y)` upward.  The first call is
at the end with the smaller major coordinate and the last call at the other end.  The lines
`(0,0)-(4,0)` and `(0,0)-(0,4)` give exactly the five points of the specification. -/
theorem drawLine_pixels (P0 P1 : Point2D) (Color : Nat) (junk : ℚ) (h0 : inRange P0)
    (h1 : inRange P1) :
    (drawLine P0 P1 Color junk).ok = true ∧
    (drawLine P0 P1 Color junk).calls.length =
      max (P1.x - P0.x).natAbs (P1.y - P0.y).natAbs + 1 ∧
    (∀ c ∈ (drawLine P0 P1 Color junk).calls, c.Color = Color) ∧
    ((drawLine P0 P1 Color junk).calls.map fun c => c.P).Nodup ∧
    ((P1.y - P0.y).natAbs < (P1.x - P0.x).natAbs →
      ((drawLine P0 P1 Color junk).calls.map fun c => c.P.x) =
        ((List.range ((P1.x - P0.x).natAbs + 1)).map fun (k : Nat) =>
          min P0.x P1.x + (k : Int)) ∧
      ((drawLine P0 P1 Color junk).calls.map fun c => c.P).head? =
        some (if P0.x > P1.x then P1 else P0) ∧
      ((drawLine P0 P1 Color junk).calls.map fun c => c.P).getLast? =
        some (if P0.x > P1.x then P0 else P1)) ∧
    ((P1.x - P0.x).natAbs ≤ (P1.y - P0.y).natAbs →
      ((drawLine P0 P1 Color junk).calls.map fun c => c.P.y) =
        ((List.range ((P1.y - P0.y).natAbs + 1)).map fun (k : Nat) =>
          min P0.y P1.y + (k : Int)) ∧
      ((drawLine P0 P1 Color junk).calls.map fun c => c.P).head? =
        some (if P0.y > P1.y then P1 else P0) ∧
      ((drawLine P0 P1 Color junk).calls.map fun c => c.P).getLast? =
        some (if P0.y > P1.y then P0 else P1)) ∧
    ((drawLine ⟨0, 0⟩ ⟨4, 0⟩ Color junk).calls.map fun c => c.P) =
      [⟨0, 0⟩, ⟨1, 0⟩, ⟨2, 0⟩, ⟨3, 0⟩, ⟨4, 0⟩] ∧
    ((drawLine ⟨0, 0⟩ ⟨0, 4⟩ Color junk).calls.map fun c => c.P) =
      [⟨0, 0⟩, ⟨0, 1⟩, ⟨0, 2⟩, ⟨0, 3⟩, ⟨0, 4⟩] := by
  have hex1 : ((drawLine ⟨0, 0⟩ ⟨4, 0⟩ Color junk).calls.map fun c => c.P) =
      [⟨0, 0⟩, ⟨1, 0⟩, ⟨2, 0⟩, ⟨3, 0⟩, ⟨4, 0⟩] := by
    rw [drawLine_points_junk ⟨0, 0⟩ ⟨4, 0⟩ Color 0 junk 0 (by decide) (by decide)]
    decide!
  have hex2 : ((drawLine ⟨0, 0⟩ ⟨0, 4⟩ Color junk).calls.map fun c => c.P) =
      [⟨0, 0⟩, ⟨0, 1⟩, ⟨0, 2⟩, ⟨0, 3⟩, ⟨0, 4⟩] := by
    rw [drawLine_points_junk ⟨0, 0⟩ ⟨0, 4⟩ Color 0 junk 0 (by decide) (by decide)]
    decide!
  by_cases hm : (P1.y - P0.y).natAbs < (P1.x - P0.x).natAbs
  · have hmax : max (P1.x - P0.x).natAbs (P1.y - P0.y).natAbs = (P1.x - P0.x).natAbs :=
      max_eq_left (Nat.le_of_lt hm)
    rcases lt_or_gt_of_ne (show P0.x ≠ P1.x by omega) with hx | hx
    · obtain ⟨f1, f2, f3, f4, f5, f6⟩ := lineCalls_xmajor_facts P0 P1 Color junk h0 h1 hx
      have hmin : min P0.x P1.x = P0.x := min_eq_left (le_of_lt hx)
      have hif : ¬ (P0.x > P1.x) := by omega
      rw [drawLine_xmajor P0 P1 Color junk h0 h1 hx hm, hmax, hmin]
      simp only [hif, if_false]
      exact ⟨trivial, f1, f2, f3, fun _ => ⟨f4, f5, f6⟩, fun h => absurd hm (by omega), hex1, hex2⟩
    · obtain ⟨f1, f2, f3, f4, f5, f6⟩ := lineCalls_xmajor_facts P1 P0 Color junk h1 h0 hx
      have hmin : min P0.x P1.x = P1.x := min_eq_right (le_of_lt hx)
      have hif : P0.x > P1.x := hx
      have hab : (P0.x - P1.x).natAbs = (P1.x - P0.x).natAbs := by omega
      rw [drawLine_xmajor_swapped P1 P0 Color junk h1 h0 hx (by omega), hmax, hmin]
      simp only [hif, if_true]
      rw [hab] at f1 f4
      exact ⟨trivial, f1, f2, f3, fun _ => ⟨f4, f5, f6⟩, fun h => absurd hm (by omega), hex1, hex2⟩
  · have hm' : (P1.x - P0.x).natAbs ≤ (P1.y - P0.y).natAbs := by omega
    have hmax : max (P1.x - P0.x).natAbs (P1.y - P0.y).natAbs = (P1.y - P0.y).natAbs :=
      max_eq_right hm'
    rcases le_or_lt P0.y P1.y with hy | hy
    · obtain ⟨f1, f2, f3, f4, f5, f6⟩ := lineCalls_ymajor_facts P0 P1 Color junk h0 h1 hy hm'
      have hmin : min P0.y P1.y = P0.y := min_eq_left hy
      have hif : ¬ (P0.y > P1.y) := by omega
      rw [drawLine_ymajor P0 P1 Color junk h0 h1 hy hm', hmax, hmin]
      simp only [hif, if_false]
      exact ⟨trivial, f1, f2, f3, fun h => absurd h hm, fun _ => ⟨f4, f5, f6⟩, hex1, hex2⟩
    · obtain ⟨f1, f2, f3, f4, f5, f6⟩ :=
        lineCalls_ymajor_facts P1 P0 Color junk h1 h0 (le_of_lt hy) (by omega)
      have hmin : min P0.y P1.y = P1.y := min_eq_right (le_of_lt hy)
      have hif : P0.y > P1.y := hy
      have hab : (P0.y - P1.y).natAbs = (P1.y - P0.y).natAbs := by omega
      rw [drawLine_ymajor_swapped P1 P0 Color junk h1 h0 hy (by omega), hmax, hmin]
      simp only [hif, if_true]
      rw [hab] at f1 f4
      exact ⟨trivial, f1, f2, f3, fun h => absurd h hm, fun _ => ⟨f4, f5, f6⟩, hex1, hex2⟩

/-- C4 at the line from `(4,3)` to `(0,0)`. -/
theorem drawLine_pixels_witness :
    inRange ⟨4, 3⟩ ∧ inRange ⟨0, 0⟩ ∧
    (drawLine (⟨4, 3⟩ : Point2D) (⟨0, 0⟩ : Point2D) 7 0).ok = true ∧
    (drawLine (⟨4, 3⟩ : Point2D) (⟨0, 0⟩ : Point2D) 7 0).calls.length =
      max ((⟨0, 0⟩ : Point2D).x - (⟨4, 3⟩ : Point2D).x).natAbs ((⟨0, 0⟩ : Point2D).y - (⟨4, 3⟩ :
          Point2D).y).natAbs + 1 ∧
    (∀ c ∈ (drawLine (⟨4, 3⟩ : Point2D) (⟨0, 0⟩ : Point2D) 7 0).calls, c.Color = 7) ∧
    ((drawLine (⟨4, 3⟩ : Point2D) (⟨0, 0⟩ : Point2D) 7 0).calls.map fun c => c.P).Nodup ∧
    (((⟨0, 0⟩ : Point2D).y - (⟨4, 3⟩ : Point2D).y).natAbs < ((⟨0, 0⟩ : Point2D).x - (⟨4, 3⟩ :
        Point2D).x).natAbs →
      ((drawLine (⟨4, 3⟩ : Point2D) (⟨0, 0⟩ : Point2D) 7 0).calls.map fun c => c.P.x) =
        ((List.range (((⟨0, 0⟩ : Point2D).x - (⟨4, 3⟩ : Point2D).x).natAbs + 1)).map fun (k : Nat)
            =>
          min (⟨4, 3⟩ : Point2D).x (⟨0, 0⟩ : Point2D).x + (k : Int)) ∧
      ((drawLine (⟨4, 3⟩ : Point2D) (⟨0, 0⟩ : Point2D) 7 0).calls.map fun c => c.P).head? =
        some (if (⟨4, 3⟩ : Point2D).x > (⟨0, 0⟩ : Point2D).x then (⟨0, 0⟩ : Point2D) else (⟨4, 3⟩
            : Point2D)) ∧
      ((drawLine (⟨4, 3⟩ : Point2D) (⟨0, 0⟩ : Point2D) 7 0).calls.map fun c => c.P).getLast? =
        some (if (⟨4, 3⟩ : Point2D).x > (⟨0, 0⟩ : Point2D).x then (⟨4, 3⟩ : Point2D) else (⟨0, 0⟩
            : Point2D))) ∧
    (((⟨0, 0⟩ : Point2D).x - (⟨4, 3⟩ : Point2D).x).natAbs ≤ ((⟨0, 0⟩ : Point2D).y - (⟨4, 3⟩ :
        Point2D).y).natAbs →
      ((drawLine (⟨4, 3⟩ : Point2D) (⟨0, 0⟩ : Point2D) 7 0).calls.map fun c => c.P.y) =
        ((List.range (((⟨0, 0⟩ : Point2D).y - (⟨4, 3⟩ : Point2D).y).natAbs + 1)).map fun (k : Nat)
            =>
          min (⟨4, 3⟩ : Point2D).y (⟨0, 0⟩ : Point2D).y + (k : Int)) ∧
      ((drawLine (⟨4, 3⟩ : Point2D) (⟨0, 0⟩ : Point2D) 7 0).calls.map fun c => c.P).head? =
        some (if (⟨4, 3⟩ : Point2D).y > (⟨0, 0⟩ : Point2D).y then (⟨0, 0⟩ : Point2D) else (⟨4, 3⟩
            : Point2D)) ∧
      ((drawLine (⟨4, 3⟩ : Point2D) (⟨0, 0⟩ : Point2D) 7 0).calls.map fun c => c.P).getLast? =
        some (if (⟨4, 3⟩ : Point2D).y > (⟨0, 0⟩ : Point2D).y then (⟨4, 3⟩ : Point2D) else (⟨0, 0⟩
            : Point2D))) ∧
    ((drawLine ⟨0, 0⟩ ⟨4, 0⟩ 7 0).calls.map fun c => c.P) =
      [⟨0, 0⟩, ⟨1, 0⟩, ⟨2, 0⟩, ⟨3, 0⟩, ⟨4, 0⟩] ∧
    ((drawLine ⟨0, 0⟩ ⟨0, 4⟩ 7 0).calls.map fun c => c.P) =
      [⟨0, 0⟩, ⟨0, 1⟩, ⟨0, 2⟩, ⟨0, 3⟩, ⟨0, 4⟩] :=
  ⟨by decide, by decide, drawLine_pixels ⟨4, 3⟩ ⟨0, 0⟩ 7 0 (by decide) (by decide)⟩

/-! ## Triangle scan-converter: lemmas -/

/-- A read inside a buffer does not depend on what lies behind the buffer. -/
theorem readAt_junk (r : InterpResult) (junk junk' : ℚ) (i : Nat)
    (h : i < (cells r.values).length) : readAt r junk i = readAt r junk' i := by
  simp only [readAt, List.getD_eq_getElem?_getD, List.getElem?_eq_getElem h, Option.getD_some]

/-- For in-range points sorted by `y`, the three edges and the bent wall are allocated, the
long wall and the bent wall have `P2.y - P0.y + 1` cells each, and the bent wall is the same
whatever lies behind the buffers. -/
theorem walls_shape (Q0 Q1 Q2 : Point2D) (r0 : inRange Q0) (r1 : inRange Q1) (r2 : inRange Q2)
    (hs1 : Q0.y ≤ Q1.y) (hs2 : Q1.y ≤ Q2.y) :
    ∃ v01 v02 v12 : List ℚ,
      edge01 Q0 Q1 = ⟨some v01, (v01.length : Int)⟩ ∧
      edge02 Q0 Q2 = ⟨some v02, (v02.length : Int)⟩ ∧
      edge12 Q1 Q2 = ⟨some v12, (v12.length : Int)⟩ ∧
      (v02.length : Int) = Q2.y - Q0.y + 1 ∧
      (v01.length : Int) + (v12.length : Int) - 1 = Q2.y - Q0.y + 1 ∧
      ∀ junk, bentWall Q0 Q1 Q2 junk =
        ⟨some ((v01 ++ v12).take (v01.length + v12.length - 1)),
          (v01.length : Int) + (v12.length : Int) - 1⟩ := by
  obtain ⟨v01, e01, l01⟩ := edge_shape Q0 Q1 r0 r1 hs1
  obtain ⟨v02, e02, l02⟩ := edge_shape Q0 Q2 r0 r2 (le_trans hs1 hs2)
  obtain ⟨v12, e12, l12⟩ := edge_shape Q1 Q2 r1 r2 hs2
  refine ⟨v01, v02, v12, e01, e02, e12, l02, by omega, ?_⟩
  intro junk
  rw [bentWall, edge01, edge12, e01, e12,
    concatenateInterpResult_cells v01 v12 true junk (fun _ => by omega)]
  simp only [if_true]

/-- The choice of the walls reads both walls inside their buffers. -/
theorem chooseWalls_junk (x02 x012 : InterpResult) (junk junk' : ℚ)
    (h1 : middleIndex x012 < (cells x02.values).length)
    (h2 : middleIndex x012 < (cells x012.values).length) :
    chooseWalls x02 x012 junk = chooseWalls x02 x012 junk' := by
  unfold chooseWalls
  rw [readAt_junk x02 junk junk' _ h1, readAt_junk x012 junk junk' _ h2]

/-- The chosen walls are the two walls, in one order or the other. -/
theorem chooseWalls_cases (x02 x012 : InterpResult) (junk : ℚ) :
    chooseWalls x02 x012 junk = (x02, x012) ∨ chooseWalls x02 x012 junk = (x012, x02) := by
  unfold chooseWalls
  split
  · exact Or.inl rfl
  · exact Or.inr rfl

/-- The points filled by the row loops depend neither on the colour nor on what lies behind
the wall buffers, when both walls have a cell for every row. -/
theorem fillRows_points_junk (P0 P2 : Point2D) (x_left x_right : InterpResult)
    (Color Color' : Nat) (junk junk' : ℚ)
    (hl : (P2.y - P0.y).toNat ≤ (cells x_left.values).length)
    (hr : (P2.y - P0.y).toNat ≤ (cells x_right.values).length) :
    ((fillRows P0 P2 x_left x_right Color junk).map fun c => c.P) =
      ((fillRows P0 P2 x_left x_right Color' junk').map fun c => c.P) := by
  unfold fillRows
  rw [List.map_flatMap, List.map_flatMap]
  apply List.flatMap_congr
  intro k hk
  have hk' := List.mem_range.mp hk
  have hrow : (P0.y + (k : Int) - P0.y).toNat = k := by omega
  simp only [hrow, List.map_map]
  rw [readAt_junk x_left junk junk' k (by omega), readAt_junk x_right junk junk' k (by omega)]
  rfl

/-- For in-range points sorted by `y`, no allocation of `drawTriangle` fails. -/
theorem drawSorted_eq (Q0 Q1 Q2 : Point2D) (Color : Nat) (junk : ℚ) (r0 : inRange Q0)
    (r1 : inRange Q1) (r2 : inRange Q2) (hs1 : Q0.y ≤ Q1.y) (hs2 : Q1.y ≤ Q2.y) :
    drawSorted Q0 Q1 Q2 Color junk =
      ⟨true, fillRows Q0 Q2 (chooseWalls (edge02 Q0 Q2) (bentWall Q0 Q1 Q2 junk) junk).1
        (chooseWalls (edge02 Q0 Q2) (bentWall Q0 Q1 Q2 junk) junk).2 Color junk⟩ := by
  obtain ⟨v01, v02, v12, e01, e02, e12, _, _, hb⟩ := walls_shape Q0 Q1 Q2 r0 r1 r2 hs1 hs2
  have hb' := hb junk
  rw [bentWall] at hb'
  have hbv : (concatenateInterpResult (edge01 Q0 Q1) (edge12 Q1 Q2) true junk).values.isNone =
      false := by rw [hb']; rfl
  have h1 : (edge01 Q0 Q1).values.isNone = false := by rw [e01]; rfl
  have h2 : (edge02 Q0 Q2).values.isNone = false := by rw [e02]; rfl
  have h3 : (edge12 Q1 Q2).values.isNone = false := by rw [e12]; rfl
  simp only [drawSorted, h1, h2, h3, hbv, Bool.or_self, Bool.false_eq_true, if_false, bentWall]

/-- For in-range points sorted by `y`, the chosen walls do not depend on what lies behind the
buffers, and each has `P2.y - P0.y + 1` cells. -/
theorem sortedWalls_junk (Q0 Q1 Q2 : Point2D) (junk junk' : ℚ) (r0 : inRange Q0)
    (r1 : inRange Q1) (r2 : inRange Q2) (hs1 : Q0.y ≤ Q1.y) (hs2 : Q1.y ≤ Q2.y) :
    chooseWalls (edge02 Q0 Q2) (bentWall Q0 Q1 Q2 junk) junk =
      chooseWalls (edge02 Q0 Q2) (bentWall Q0 Q1 Q2 junk') junk' ∧
    ((cells (chooseWalls (edge02 Q0 Q2) (bentWall Q0 Q1 Q2 junk) junk).1.values).length : Int) =
      Q2.y - Q0.y + 1 ∧
    ((cells (chooseWalls (edge02 Q0 Q2) (bentWall Q0 Q1 Q2 junk) junk).2.values).length : Int) =
      Q2.y - Q0.y + 1 := by
  obtain ⟨v01, v02, v12, e01, e02, e12, l02, l012, hb⟩ :=
    walls_shape Q0 Q1 Q2 r0 r1 r2 hs1 hs2
  have hlen012 : ((v01 ++ v12).take (v01.length + v12.length - 1)).length =
      v01.length + v12.length - 1 := by
    rw [List.length_take, List.length_append]; omega
  have hc02 : (cells (edge02 Q0 Q2).values).length = v02.length := by rw [e02]; rfl
  have hc012 : ∀ j, (cells (bentWall Q0 Q1 Q2 j).values).length =
      v01.length + v12.length - 1 := by
    intro j; rw [hb j]; exact hlen012
  have hm : middleIndex (bentWall Q0 Q1 Q2 junk') < v01.length + v12.length - 1 := by
    rw [hb junk']
    simp only [middleIndex]
    have h0 : (0 : Int) ≤ (v01.length : Int) + (v12.length : Int) - 1 := by omega
    rw [Int.tdiv_eq_ediv h0 (by norm_num)]
    omega
  refine ⟨?_, ?_, ?_⟩
  · rw [hb junk, ← hb junk']
    exact chooseWalls_junk _ _ junk junk' (by rw [hc02]; omega) (by rw [hc012]; exact hm)
  · rcases chooseWalls_cases (edge02 Q0 Q2) (bentWall Q0 Q1 Q2 junk) junk with h | h
    · rw [h]; simp only [hc02]; omega
    · rw [h]; simp only [hc012]; omega
  · rcases chooseWalls_cases (edge02 Q0 Q2) (bentWall Q0 Q1 Q2 junk) junk with h | h
    · rw [h]; simp only [hc012]; omega
    · rw [h]; simp only [hc02]; omega

/-- The walls that `drawTriangle` fills between do not depend on what lies behind the
buffers, for in-range points. -/
theorem triangleWalls_junk (P0 P1 P2 : Point2D) (junk junk' : ℚ) (h0 : inRange P0)
    (h1 : inRange P1) (h2 : inRange P2) :
    triangleWalls P0 P1 P2 junk = triangleWalls P0 P1 P2 junk' := by
  obtain ⟨hs1, hs2⟩ := sortByY_sorted P0 P1 P2
  obtain ⟨r0, r1, r2⟩ := sortByY_inRange P0 P1 P2 h0 h1 h2
  exact (sortedWalls_junk _ _ _ junk junk' r0 r1 r2 hs1 hs2).1

/-- The points that `drawTriangle` passes to `setPixel` depend neither on the colour nor on
what lies behind the buffers, for in-range points. -/
theorem drawTriangle_points_junk (P0 P1 P2 : Point2D) (Color Color' : Nat) (junk junk' : ℚ)
    (h0 : inRange P0) (h1 : inRange P1) (h2 : inRange P2) :
    ((drawTriangle P0 P1 P2 Color junk).calls.map fun c => c.P) =
      ((drawTriangle P0 P1 P2 Color' junk').calls.map fun c => c.P) := by
  obtain ⟨hs1, hs2⟩ := sortByY_sorted P0 P1 P2
  obtain ⟨r0, r1, r2⟩ := sortByY_inRange P0 P1 P2 h0 h1 h2
  obtain ⟨hw, hl, hr⟩ := sortedWalls_junk _ _ _ junk junk' r0 r1 r2 hs1 hs2
  unfold drawTriangle
  rw [drawSorted_eq _ _ _ Color junk r0 r1 r2 hs1 hs2,
    drawSorted_eq _ _ _ Color' junk' r0 r1 r2 hs1 hs2, ← hw]
  exact fillRows_points_junk _ _ _ _ Color Color' junk junk' (by omega) (by omega)

/-- The fuel given to the inner fill loop is enough: with any larger fuel the loop visits the
same values of `x`, so the loop ends because its condition `x < right` fails. -/
theorem scanLoop_fuel_enough (right : ℚ) (fuel : Nat) (x : Int)
    (h : (⌈right⌉ - x).toNat ≤ fuel) :
    scanLoop right fuel x = scanLoop right (⌈right⌉ - x).toNat x := by
  induction fuel generalizing x with
  | zero =>
    have h0 : (⌈right⌉ - x).toNat = 0 := Nat.le_zero.mp h
    rw [h0]
  | succ n ih =>
    by_cases hx : (x : ℚ) < right
    · have hc : x < ⌈right⌉ := Int.lt_ceil.mpr hx
      have hn : (⌈right⌉ - x).toNat = (⌈right⌉ - (x + 1)).toNat + 1 := by omega
      rw [hn]
      simp only [scanLoop, hx, if_true]
      rw [ih (x + 1) (by omega)]
    · have hc : ¬ (x < ⌈right⌉) := fun hlt => hx (Int.lt_ceil.mp hlt)
      have hn : (⌈right⌉ - x).toNat = 0 := by omega
      rw [hn]
      simp only [scanLoop, hx, if_false]

/-- The values of `x` visited on a row are exactly the integers from the start value up to,
and excluding, the right wall. -/
theorem scanLoop_mem (right : ℚ) (fuel : Nat) (x z : Int) (h : (⌈right⌉ - x).toNat ≤ fuel) :
    z ∈ scanLoop right fuel x ↔ x ≤ z ∧ (z : ℚ) < right := by
  induction fuel generalizing x with
  | zero =>
    have hc : ⌈right⌉ ≤ x := by omega
    have hr : right ≤ (x : ℚ) := Int.ceil_le.mp hc
    simp only [scanLoop, List.not_mem_nil, false_iff, not_and, not_lt]
    intro hxz
    have : (x : ℚ) ≤ (z : ℚ) := by exact_mod_cast hxz
    linarith
  | succ n ih =>
    by_cases hx : (x : ℚ) < right
    · have hc : x < ⌈right⌉ := Int.lt_ceil.mpr hx
      simp only [scanLoop, hx, if_true, List.mem_cons]
      rw [ih (x + 1) (by omega)]
      constructor
      · rintro (rfl | ⟨h1, h2⟩)
        · exact ⟨le_refl _, hx⟩
        · exact ⟨by omega, h2⟩
      · rintro ⟨h1, h2⟩
        rcases eq_or_lt_of_le h1 with h3 | h3
        · exact Or.inl h3.symm
        · exact Or.inr ⟨by omega, h2⟩
    · simp only [scanLoop, hx, if_false, List.not_mem_nil, false_iff, not_and, not_lt]
      intro hxz
      have : (x : ℚ) ≤ (z : ℚ) := by exact_mod_cast hxz
      linarith

/-! ## Claims on the triangle scan-converter -/

/-- C1, the code at the failing input: for the triangle `(0,0),(4,0),(0,4)`, whatever the
colour and whatever lies behind the buffers, `drawTriangle` passes six points to `setPixel`:
the three points strictly inside, and `(3,1)`, `(2,2)`, `(1,3)`, which lie on the edge from
`(4,0)` to `(0,4)` and are not strictly inside. -/
theorem drawTriangle_fills_edge (Color : Nat) (junk : ℚ) :
    ((drawTriangle ⟨0, 0⟩ ⟨4, 0⟩ ⟨0, 4⟩ Color junk).calls.map fun c => c.P) =
      [⟨1, 1⟩, ⟨2, 1⟩, ⟨3, 1⟩, ⟨1, 2⟩, ⟨2, 2⟩, ⟨1, 3⟩] ∧
    strictlyInside ⟨0, 0⟩ ⟨4, 0⟩ ⟨0, 4⟩ ⟨1, 1⟩ ∧
    strictlyInside ⟨0, 0⟩ ⟨4, 0⟩ ⟨0, 4⟩ ⟨2, 1⟩ ∧
    strictlyInside ⟨0, 0⟩ ⟨4, 0⟩ ⟨0, 4⟩ ⟨1, 2⟩ ∧
    ¬ strictlyInside ⟨0, 0⟩ ⟨4, 0⟩ ⟨0, 4⟩ ⟨3, 1⟩ ∧
    ¬ strictlyInside ⟨0, 0⟩ ⟨4, 0⟩ ⟨0, 4⟩ ⟨2, 2⟩ ∧
    ¬ strictlyInside ⟨0, 0⟩ ⟨4, 0⟩ ⟨0, 4⟩ ⟨1, 3⟩ := by
  refine ⟨?_, by decide, by decide, by decide, by decide, by decide, by decide⟩
  rw [drawTriangle_points_junk ⟨0, 0⟩ ⟨4, 0⟩ ⟨0, 4⟩ Color 0 junk 0 (by decide) (by decide)
    (by decide)]
  decide!

/-- C3, the code at the failing input: for the triangle `(0,0),(6,2),(10,4)` the long wall
`[0, 5/2, 5, 15/2, 10]` is chosen as `x_left` and the bent wall `[0, 3, 6, 6, 8]` as `x_right`,
whatever lies behind the buffers; on rows 3 and 4 the left wall is to the right of the right
wall (`15/2 > 6` and `10 > 8`), so the walls cross. -/
theorem triangleWalls_cross (junk : ℚ) :
    triangleWalls ⟨0, 0⟩ ⟨6, 2⟩ ⟨10, 4⟩ junk =
      (⟨some [0, 5 / 2, 5, 15 / 2, 10], 5⟩, ⟨some [0, 3, 6, 6, 8], 5⟩) ∧
    ¬ (readAt (triangleWalls ⟨0, 0⟩ ⟨6, 2⟩ ⟨10, 4⟩ junk).1 junk 3 ≤
        readAt (triangleWalls ⟨0, 0⟩ ⟨6, 2⟩ ⟨10, 4⟩ junk).2 junk 3) ∧
    ¬ (readAt (triangleWalls ⟨0, 0⟩ ⟨6, 2⟩ ⟨10, 4⟩ junk).1 junk 4 ≤
        readAt (triangleWalls ⟨0, 0⟩ ⟨6, 2⟩ ⟨10, 4⟩ junk).2 junk 4) := by
  have h : triangleWalls ⟨0, 0⟩ ⟨6, 2⟩ ⟨10, 4⟩ junk =
      (⟨some [0, 5 / 2, 5, 15 / 2, 10], 5⟩, ⟨some [0, 3, 6, 6, 8], 5⟩) := by
    rw [triangleWalls_junk ⟨0, 0⟩ ⟨6, 2⟩ ⟨10, 4⟩ junk 0 (by decide) (by decide) (by decide)]
    decide!
  refine ⟨h, ?_, ?_⟩
  · rw [h]
    simp only [readAt, cells, Option.getD_some, List.getD_cons_succ, List.getD_cons_zero]
    norm_num
  · rw [h]
    simp only [readAt, cells, Option.getD_some, List.getD_cons_succ, List.getD_cons_zero]
    norm_num

/-- C7, the code at the failing input: the points `(0,0),(2,1),(6,3)` are collinear (zero
signed area), and `drawTriangle` makes one `setPixel` call, at `(3,2)`, whatever the colour
and whatever lies behind the buffers. -/
theorem drawTriangle_collinear_fills (Color : Nat) (junk : ℚ) :
    signedArea2 ⟨0, 0⟩ ⟨2, 1⟩ ⟨6, 3⟩ = 0 ∧
    (drawTriangle ⟨0, 0⟩ ⟨2, 1⟩ ⟨6, 3⟩ Color junk).calls.map (fun c => c.P) = [⟨3, 2⟩] ∧
    (drawTriangle ⟨0, 0⟩ ⟨2, 1⟩ ⟨6, 3⟩ Color junk).calls ≠ [] := by
  have h : (drawTriangle ⟨0, 0⟩ ⟨2, 1⟩ ⟨6, 3⟩ Color junk).calls.map (fun c => c.P) =
      [⟨3, 2⟩] := by
    rw [drawTriangle_points_junk ⟨0, 0⟩ ⟨2, 1⟩ ⟨6, 3⟩ Color 0 junk 0 (by decide) (by decide)
      (by decide)]
    decide!
  refine ⟨by decide, h, ?_⟩
  intro hnil
  rw [hnil] at h
  exact absurd h (by decide)

/-! ## Barycentric shader: lemmas -/

/-- The sort of `drawGradientTriangle` orders the vertex positions as the sort of
`drawTriangle` orders the points. -/
theorem sortVerticesByY_pos (V0 V1 V2 : Vertex2D) :
    (sortVerticesByY V0 V1 V2).1.pos = (sortByY V0.pos V1.pos V2.pos).1 ∧
    (sortVerticesByY V0 V1 V2).2.1.pos = (sortByY V0.pos V1.pos V2.pos).2.1 ∧
    (sortVerticesByY V0 V1 V2).2.2.pos = (sortByY V0.pos V1.pos V2.pos).2.2 := by
  unfold sortVerticesByY sortByY swapVertex2D swapPoint2D
  by_cases a : V1.pos.y < V0.pos.y <;> simp only [a, if_true, if_false]
  · by_cases b : V2.pos.y < V1.pos.y <;> simp only [b, if_true, if_false]
    · by_cases c : V1.pos.y < V0.pos.y <;> simp only [c, if_true, if_false, and_self]
    · by_cases c : V2.pos.y < V0.pos.y <;> simp only [c, if_true, if_false, and_self]
  · by_cases b : V2.pos.y < V0.pos.y <;> simp only [b, if_true, if_false]
    · by_cases c : V0.pos.y < V1.pos.y <;> simp only [c, if_true, if_false, and_self]
    · by_cases c : V2.pos.y < V1.pos.y <;> simp only [c, if_true, if_false, and_self]

/-- Sorting three points does not change whether they are collinear. -/
theorem sortByY_collinear (P0 P1 P2 : Point2D) :
    signedArea2 (sortByY P0 P1 P2).1 (sortByY P0 P1 P2).2.1 (sortByY P0 P1 P2).2.2 = 0 ↔
      signedArea2 P0 P1 P2 = 0 := by
  unfold sortByY swapPoint2D signedArea2
  by_cases a : P1.y < P0.y
  · by_cases b : P2.y < P1.y
    · by_cases c : P1.y < P0.y
      all_goals simp only [a, b, c, if_true, if_false]
      all_goals constructor
      all_goals intro h
      all_goals first | linear_combination h | linear_combination -h
    · by_cases c : P2.y < P0.y
      all_goals simp only [a, b, c, if_true, if_false]
      all_goals constructor
      all_goals intro h
      all_goals first | linear_combination h | linear_combination -h
  · by_cases b : P2.y < P0.y
    · by_cases c : P0.y < P1.y
      all_goals simp only [a, b, c, if_true, if_false]
      all_goals constructor
      all_goals intro h
      all_goals first | linear_combination h | linear_combination -h
    · by_cases c : P2.y < P1.y
      all_goals simp only [a, b, c, if_true, if_false]
      all_goals constructor
      all_goals intro h
      all_goals first | linear_combination h | linear_combination -h

/-- The divisor of `drawGradientTriangle` is twice the signed area of the vertex positions. -/
theorem gradientDivisor_eq (V0 V1 V2 : Vertex2D) :
    gradientDivisor V0 V1 V2 = ((signedArea2 V0.pos V1.pos V2.pos : Int) : ℚ) := by
  simp only [gradientDivisor, signedArea2]
  push_cast
  ring

/-- The divisions that `drawGradientTriangle` performs: none when an allocation fails, else
the single division by `v0x * v1y - v1x * v0y`, with no condition on that divisor. -/
theorem shadeSorted_divisors (V0 V1 V2 : Vertex2D) (junk : ℚ) :
    (shadeSorted V0 V1 V2 junk).divisors = [] ∨
      (shadeSorted V0 V1 V2 junk).divisors = [gradientDivisor V0 V1 V2] := by
  unfold shadeSorted
  simp only []
  split
  · exact Or.inl rfl
  · split
    · exact Or.inl rfl
    · exact Or.inr rfl

/-- For in-range vertices sorted by `y`, no allocation of `drawGradientTriangle` fails: the
division is performed and `true` is returned. -/
theorem shadeSorted_eq (V0 V1 V2 : Vertex2D) (junk : ℚ) (r0 : inRange V0.pos)
    (r1 : inRange V1.pos) (r2 : inRange V2.pos) (hs1 : V0.pos.y ≤ V1.pos.y)
    (hs2 : V1.pos.y ≤ V2.pos.y) :
    shadeSorted V0 V1 V2 junk =
      ⟨true, [gradientDivisor V0 V1 V2],
        shadeRows V0 V1 V2 (fdiv 1 (gradientDivisor V0 V1 V2))
          (chooseWalls (edge02 V0.pos V2.pos) (bentWall V0.pos V1.pos V2.pos junk) junk).1
          (chooseWalls (edge02 V0.pos V2.pos) (bentWall V0.pos V1.pos V2.pos junk) junk).2
          junk⟩ := by
  obtain ⟨v01, v02, v12, e01, e02, e12, _, _, hb⟩ :=
    walls_shape V0.pos V1.pos V2.pos r0 r1 r2 hs1 hs2
  have hb' := hb junk
  rw [bentWall] at hb'
  have hbv : (concatenateInterpResult (edge01 V0.pos V1.pos) (edge12 V1.pos V2.pos) true
      junk).values.isNone = false := by rw [hb']; rfl
  have h1 : (edge01 V0.pos V1.pos).values.isNone = false := by rw [e01]; rfl
  have h2 : (edge02 V0.pos V2.pos).values.isNone = false := by rw [e02]; rfl
  have h3 : (edge12 V1.pos V2.pos).values.isNone = false := by rw [e12]; rfl
  simp only [edge01, edge02, edge12] at h1 h2 h3 hbv
  simp only [shadeSorted, h1, h2, h3, hbv, Bool.or_self, Bool.false_eq_true, if_false, bentWall,
    edge01, edge02, edge12]

/-! ## Claims on the barycentric shader -/

/-- C8, as stated, fails: for the collinear vertices `(0,0),(2,0),(4,0)` the function performs
its division with divisor `0`, makes no report (it returns `true`), and so does not keep the
division to non-zero divisors. -/
theorem drawGradientTriangle_divides_by_zero :
    (drawGradientTriangle ⟨⟨0, 0⟩, 0xFF0000⟩ ⟨⟨2, 0⟩, 0x00FF00⟩ ⟨⟨4, 0⟩, 0x0000FF⟩ 0).divisors =
      [0] ∧
    (drawGradientTriangle ⟨⟨0, 0⟩, 0xFF0000⟩ ⟨⟨2, 0⟩, 0x00FF00⟩ ⟨⟨4, 0⟩, 0x0000FF⟩ 0).ok = true ∧
    ¬ (∀ d ∈ (drawGradientTriangle ⟨⟨0, 0⟩, 0xFF0000⟩ ⟨⟨2, 0⟩, 0x00FF00⟩
        ⟨⟨4, 0⟩, 0x0000FF⟩ 0).divisors, d ≠ 0) := by
  have h : (drawGradientTriangle ⟨⟨0, 0⟩, 0xFF0000⟩ ⟨⟨2, 0⟩, 0x00FF00⟩
      ⟨⟨4, 0⟩, 0x0000FF⟩ 0).divisors = [0] := by decide!
  refine ⟨h, by decide!, ?_⟩
  rw [h]
  simp

/-- C8, amended: `drawGradientTriangle` has no collinearity check: for in-range vertices,
collinear or not, it performs the division `1 / (v0x * v1y - v1x * v0y)` once and returns
`true`.  In exact arithmetic (the divisor taken as a rational, without the rounding of
`float`), on every input each division it performs has a non-zero divisor exactly when the
three vertex positions are not collinear. -/
theorem drawGradientTriangle_divisor (V0 V1 V2 : Vertex2D) (junk : ℚ) :
    (∀ d ∈ (drawGradientTriangle V0 V1 V2 junk).divisors,
      (d ≠ 0 ↔ signedArea2 V0.pos V1.pos V2.pos ≠ 0)) ∧
    (inRange V0.pos → inRange V1.pos → inRange V2.pos →
      (drawGradientTriangle V0 V1 V2 junk).ok = true ∧
      (drawGradientTriangle V0 V1 V2 junk).divisors.length = 1) := by
  obtain ⟨p0, p1, p2⟩ := sortVerticesByY_pos V0 V1 V2
  constructor
  · intro d hd
    unfold drawGradientTriangle at hd
    rcases shadeSorted_divisors (sortVerticesByY V0 V1 V2).1 (sortVerticesByY V0 V1 V2).2.1
      (sortVerticesByY V0 V1 V2).2.2 junk with h | h
    · rw [h] at hd
      exact absurd hd (List.not_mem_nil d)
    · rw [h] at hd
      have hd' : d = gradientDivisor (sortVerticesByY V0 V1 V2).1 (sortVerticesByY V0 V1 V2).2.1
          (sortVerticesByY V0 V1 V2).2.2 := by simpa using hd
      rw [hd', gradientDivisor_eq, p0, p1, p2]
      rw [Ne, Ne, Int.cast_eq_zero, sortByY_collinear]
  · intro h0 h1 h2
    obtain ⟨hs1, hs2⟩ := sortByY_sorted V0.pos V1.pos V2.pos
    obtain ⟨r0, r1, r2⟩ := sortByY_inRange V0.pos V1.pos V2.pos h0 h1 h2
    rw [← p0, ← p1] at hs1
    rw [← p1, ← p2] at hs2
    rw [← p0] at r0
    rw [← p1] at r1
    rw [← p2] at r2
    unfold drawGradientTriangle
    rw [shadeSorted_eq _ _ _ junk r0 r1 r2 hs1 hs2]
    exact ⟨rfl, rfl⟩

/-- The amended C8 at the vertices `(0,0)`, `(4,0)`, `(0,4)`, whose divisor is `16`. -/
theorem drawGradientTriangle_divisor_witness :
    inRange (⟨⟨0, 0⟩, 0xFF0000⟩ : Vertex2D).pos ∧ inRange (⟨⟨4, 0⟩, 0x00FF00⟩ : Vertex2D).pos ∧
    inRange (⟨⟨0, 4⟩, 0x0000FF⟩ : Vertex2D).pos ∧
    (drawGradientTriangle ⟨⟨0, 0⟩, 0xFF0000⟩ ⟨⟨4, 0⟩, 0x00FF00⟩ ⟨⟨0, 4⟩, 0x0000FF⟩ 0).ok = true ∧
    (drawGradientTriangle ⟨⟨0, 0⟩, 0xFF0000⟩ ⟨⟨4, 0⟩, 0x00FF00⟩
      ⟨⟨0, 4⟩, 0x0000FF⟩ 0).divisors.length = 1 ∧
    (16 : ℚ) ∈ (drawGradientTriangle ⟨⟨0, 0⟩, 0xFF0000⟩ ⟨⟨4, 0⟩, 0x00FF00⟩
      ⟨⟨0, 4⟩, 0x0000FF⟩ 0).divisors ∧
    ((16 : ℚ) ≠ 0 ↔ signedArea2 (⟨⟨0, 0⟩, 0xFF0000⟩ : Vertex2D).pos
      (⟨⟨4, 0⟩, 0x00FF00⟩ : Vertex2D).pos (⟨⟨0, 4⟩, 0x0000FF⟩ : Vertex2D).pos ≠ 0) :=
  ⟨by decide, by decide, by decide,
    ((drawGradientTriangle_divisor ⟨⟨0, 0⟩, 0xFF0000⟩ ⟨⟨4, 0⟩, 0x00FF00⟩ ⟨⟨0, 4⟩, 0x0000FF⟩ 0).2
      (by decide) (by decide) (by decide)).1,
    ((drawGradientTriangle_divisor ⟨⟨0, 0⟩, 0xFF0000⟩ ⟨⟨4, 0⟩, 0x00FF00⟩ ⟨⟨0, 4⟩, 0x0000FF⟩ 0).2
      (by decide) (by decide) (by decide)).2,
    by decide!,
    (drawGradientTriangle_divisor ⟨⟨0, 0⟩, 0xFF0000⟩ ⟨⟨4, 0⟩, 0x00FF00⟩ ⟨⟨0, 4⟩, 0x0000FF⟩ 0).1
      16 (by decide!)⟩

/-- C9, the code at the failing input: the weights of the inner loop at the position of `V0`
are `alpha = 0`, `beta = 0` (so gamma is `1`) for every triangle and every `denom`; for
`V0 = (0,0,red)`, `V1 = (4,0,green)`, `V2 = (0,4,blue)` the loop's `denom` is `1/16` and the
point at `V0` is shaded blue (the colour of `V2`), the point at `V1` red (the colour of `V0`)
and the point at `V2` green (the colour of `V1`). -/
theorem pixelWeights_at_V0 (V0 V1 V2 : Vertex2D) (denom : ℚ) :
    pixelWeights V0 V1 V2 denom V0.pos.x V0.pos.y = (0, 0) ∧
    (drawGradientTriangle ⟨⟨0, 0⟩, 0xFF0000⟩ ⟨⟨4, 0⟩, 0x00FF00⟩ ⟨⟨0, 4⟩, 0x0000FF⟩ 0).divisors =
      [16] ∧
    fdiv 1 16 = some (1 / 16) ∧
    pixelWeights ⟨⟨0, 0⟩, 0xFF0000⟩ ⟨⟨4, 0⟩, 0x00FF00⟩ ⟨⟨0, 4⟩, 0x0000FF⟩ (1 / 16) 0 0 = (0, 0) ∧
    shadePixel ⟨⟨0, 0⟩, 0xFF0000⟩ ⟨⟨4, 0⟩, 0x00FF00⟩ ⟨⟨0, 4⟩, 0x0000FF⟩ (1 / 16) 0 0 = 0x0000FF ∧
    shadePixel ⟨⟨0, 0⟩, 0xFF0000⟩ ⟨⟨4, 0⟩, 0x00FF00⟩ ⟨⟨0, 4⟩, 0x0000FF⟩ (1 / 16) 4 0 = 0xFF0000 ∧
    shadePixel ⟨⟨0, 0⟩, 0xFF0000⟩ ⟨⟨4, 0⟩, 0x00FF00⟩ ⟨⟨0, 4⟩, 0x0000FF⟩ (1 / 16) 0 4 = 0x00FF00 :=
        by
  refine ⟨?_, by decide!, by decide!, by decide!, by decide!, by decide!, by decide!⟩
  simp [pixelWeights]

/-! ## Claims on the y-sort -/

/-- Every arrangement of three elements is a permutation of them. -/
theorem perm_three {α : Type} (a b c : α) :
    [a, b, c].Perm [a, b, c] ∧ [a, c, b].Perm [a, b, c] ∧ [b, a, c].Perm [a, b, c] ∧
    [b, c, a].Perm [a, b, c] ∧ [c, a, b].Perm [a, b, c] ∧ [c, b, a].Perm [a, b, c] := by
  have h1 : [a, c, b].Perm [a, b, c] := (List.Perm.swap b c []).cons a
  have h2 : [b, a, c].Perm [a, b, c] := List.Perm.swap a b [c]
  have h3 : [b, c, a].Perm [a, b, c] := @List.perm_append_comm α [b, c] [a]
  have h4 : [c, a, b].Perm [a, b, c] := @List.perm_append_comm α [c] [a, b]
  have h5 : [c, b, a].Perm [a, b, c] := (List.Perm.swap b c [a]).trans h3
  exact ⟨List.Perm.refl _, h1, h2, h3, h4, h5⟩

/-- The points after the sort of `drawTriangle` are a permutation of the points before. -/
theorem sortByY_perm (P0 P1 P2 : Point2D) :
    List.Perm [(sortByY P0 P1 P2).1, (sortByY P0 P1 P2).2.1, (sortByY P0 P1 P2).2.2]
      [P0, P1, P2] := by
  obtain ⟨h0, h1, h2, h3, h4, h5⟩ := perm_three P0 P1 P2
  unfold sortByY swapPoint2D
  by_cases a : P1.y < P0.y
  · by_cases b : P2.y < P1.y
    · simp only [a, b, if_true]
      exact h5
    · by_cases c : P2.y < P0.y
      · simp only [a, b, c, if_true, if_false]
        exact h3
      · simp only [a, b, c, if_true, if_false]
        exact h2
  · by_cases b : P2.y < P0.y
    · by_cases c : P0.y < P1.y
      · simp only [a, b, c, if_true, if_false]
        exact h4
      · simp only [a, b, c, if_true, if_false]
        exact h5
    · by_cases c : P2.y < P1.y
      · simp only [a, b, c, if_true, if_false]
        exact h1
      · simp only [a, b, c, if_true, if_false]
        exact h0

/-- The vertices after the sort of `drawGradientTriangle` are a permutation of the vertices
before. -/
theorem sortVerticesByY_perm (V0 V1 V2 : Vertex2D) :
    List.Perm [(sortVerticesByY V0 V1 V2).1, (sortVerticesByY V0 V1 V2).2.1,
      (sortVerticesByY V0 V1 V2).2.2] [V0, V1, V2] := by
  obtain ⟨h0, h1, h2, h3, h4, h5⟩ := perm_three V0 V1 V2
  unfold sortVerticesByY swapVertex2D
  by_cases a : V1.pos.y < V0.pos.y
  · by_cases b : V2.pos.y < V1.pos.y
    · simp only [a, b, if_true]
      exact h5
    · by_cases c : V2.pos.y < V0.pos.y
      · simp only [a, b, c, if_true, if_false]
        exact h3
      · simp only [a, b, c, if_true, if_false]
        exact h2
  · by_cases b : V2.pos.y < V0.pos.y
    · by_cases c : V0.pos.y < V1.pos.y
      · simp only [a, b, c, if_true, if_false]
        exact h4
      · simp only [a, b, c, if_true, if_false]
        exact h5
    · by_cases c : V2.pos.y < V1.pos.y
      · simp only [a, b, c, if_true, if_false]
        exact h1
      · simp only [a, b, c, if_true, if_false]
        exact h0

/-- C11: for every three points, the three conditional swaps at the start of `drawTriangle`
leave `P0.y <= P1.y <= P2.y`, and the three resulting points are a permutation of the three
input points; the same holds for the swaps of `drawGradientTriangle` on vertices. -/
theorem sortByY_sorted_perm (P0 P1 P2 : Point2D) (V0 V1 V2 : Vertex2D) :
    (sortByY P0 P1 P2).1.y ≤ (sortByY P0 P1 P2).2.1.y ∧
    (sortByY P0 P1 P2).2.1.y ≤ (sortByY P0 P1 P2).2.2.y ∧
    List.Perm [(sortByY P0 P1 P2).1, (sortByY P0 P1 P2).2.1, (sortByY P0 P1 P2).2.2]
      [P0, P1, P2] ∧
    (sortVerticesByY V0 V1 V2).1.pos.y ≤ (sortVerticesByY V0 V1 V2).2.1.pos.y ∧
    (sortVerticesByY V0 V1 V2).2.1.pos.y ≤ (sortVerticesByY V0 V1 V2).2.2.pos.y ∧
    List.Perm [(sortVerticesByY V0 V1 V2).1, (sortVerticesByY V0 V1 V2).2.1,
      (sortVerticesByY V0 V1 V2).2.2] [V0, V1, V2] := by
  obtain ⟨hs1, hs2⟩ := sortByY_sorted P0 P1 P2
  obtain ⟨p0, p1, p2⟩ := sortVerticesByY_pos V0 V1 V2
  obtain ⟨hv1, hv2⟩ := sortByY_sorted V0.pos V1.pos V2.pos
  exact ⟨hs1, hs2, sortByY_perm P0 P1 P2, by rw [p0, p1]; exact hv1,
    by rw [p1, p2]; exact hv2, sortVerticesByY_perm V0 V1 V2⟩

/-! ## Further claims on sequence concatenation -/

/-- C12: for all sequences `A` and `B` (allocated, with `size` their number of values),
`concatenateInterpResult(A, B, false)` returns a sequence of size `A.size + B.size` whose
values are `A` followed by `B`: its first `A.size` values are `A` in order and the remaining
ones are `B` in order, whatever lies behind the buffers. -/
theorem concatenateInterpResult_keep (A B : List ℚ) (junk : ℚ) :
    concatenateInterpResult ⟨some A, (A.length : Int)⟩ ⟨some B, (B.length : Int)⟩ false junk =
      ⟨some (A ++ B), (A.length : Int) + (B.length : Int)⟩ ∧
    (A ++ B).length = A.length + B.length ∧
    (A ++ B).take A.length = A ∧
    (A ++ B).drop A.length = B := by
  refine ⟨?_, List.length_append A B, List.take_left' rfl, List.drop_left' rfl⟩
  rw [concatenateInterpResult_cells A B false junk (fun h => absurd h (by decide))]
  simp only [Bool.false_eq_true, if_false]
  rw [← List.length_append, List.take_length]

/-! ## Claim on the colour codec -/

/-- C16: for every 24-bit colour `c`, `createRGB(getR(c), getG(c), getB(c)) = c`; the three
channels are 8-bit values, so the `uint8_t` parameters of `createRGB` receive them
unchanged. -/
theorem createRGB_get (c : Nat) (h : c < 2 ^ 24) :
    createRGB (getR c) (getG c) (getB c) = c ∧ getR c % 256 = getR c ∧
      getG c % 256 = getG c ∧ getB c % 256 = getB c := by
  have hR : getR c = c / 65536 % 256 := by
    unfold getR
    rw [show (0xFF : Nat) = 2 ^ 8 - 1 by norm_num, Nat.and_pow_two_sub_one_eq_mod,
      Nat.shiftRight_eq_div_pow]
  have hG : getG c = c / 256 % 256 := by
    unfold getG
    rw [show (0xFF : Nat) = 2 ^ 8 - 1 by norm_num, Nat.and_pow_two_sub_one_eq_mod,
      Nat.shiftRight_eq_div_pow]
  have hB : getB c = c % 256 := by
    unfold getB
    rw [show (0xFF : Nat) = 2 ^ 8 - 1 by norm_num, Nat.and_pow_two_sub_one_eq_mod]
  have hlow : (getG c <<< 8) ||| getB c = getG c * 256 + getB c := by
    rw [Nat.shiftLeft_eq, Nat.mul_comm]
    exact (Nat.mul_add_lt_is_or (i := 8) (by rw [hB]; omega) (getG c)).symm
  have hhigh : (getR c <<< 16) ||| (getG c * 256 + getB c) =
      getR c * 65536 + (getG c * 256 + getB c) := by
    rw [Nat.shiftLeft_eq, Nat.mul_comm]
    exact (Nat.mul_add_lt_is_or (i := 16) (by rw [hG, hB]; omega) (getR c)).symm
  refine ⟨?_, by rw [hR]; omega, by rw [hG]; omega, by rw [hB]; omega⟩
  unfold createRGB
  rw [Nat.or_assoc, hlow, hhigh, hR, hG, hB]
  have h24 : (2 : Nat) ^ 24 = 16777216 := by norm_num
  omega

/-- C16 at the colour `0x12AB7F`. -/
theorem createRGB_get_witness :
    0x12AB7F < 2 ^ 24 ∧
    createRGB (getR 0x12AB7F) (getG 0x12AB7F) (getB 0x12AB7F) = 0x12AB7F ∧
    getR 0x12AB7F % 256 = getR 0x12AB7F ∧ getG 0x12AB7F % 256 = getG 0x12AB7F ∧
      getB 0x12AB7F % 256 = getB 0x12AB7F :=
  ⟨by decide, createRGB_get 0x12AB7F (by decide)⟩

/-! ## Further claim on the line rasterizer -/

/-- C19: for in-range points and any colour, `drawLine(P0, P1)` and `drawLine(P1, P0)` make
exactly the same sequence of `setPixel` calls (same points, same order, same colour), and
the points do not depend on what lies behind the interpolation buffer. -/
theorem drawLine_symmetric (P0 P1 : Point2D) (Color : Nat) (junk junk' : ℚ) (h0 : inRange P0)
    (h1 : inRange P1) :
    drawLine P0 P1 Color junk = drawLine P1 P0 Color junk ∧
    ((drawLine P0 P1 Color junk).calls.map fun c => c.P) =
      ((drawLine P1 P0 Color junk').calls.map fun c => c.P) := by
  have hsame : drawLine P0 P1 Color junk = drawLine P1 P0 Color junk := by
    by_cases hm : (P1.y - P0.y).natAbs < (P1.x - P0.x).natAbs
    · rcases lt_or_gt_of_ne (show P0.x ≠ P1.x by omega) with hx | hx
      · rw [drawLine_xmajor P0 P1 Color junk h0 h1 hx hm,
          drawLine_xmajor_swapped P0 P1 Color junk h0 h1 hx hm]
      · rw [drawLine_xmajor_swapped P1 P0 Color junk h1 h0 hx (by omega),
          drawLine_xmajor P1 P0 Color junk h1 h0 hx (by omega)]
    · rcases lt_trichotomy P0.y P1.y with hy | hy | hy
      · rw [drawLine_ymajor P0 P1 Color junk h0 h1 (le_of_lt hy) (by omega),
          drawLine_ymajor_swapped P0 P1 Color junk h0 h1 hy (by omega)]
      · have hxe : P0.x = P1.x := by omega
        have hP : P0 = P1 := by
          cases P0; cases P1; simp only [Point2D.mk.injEq]; exact ⟨hxe, hy⟩
        rw [hP]
      · rw [drawLine_ymajor_swapped P1 P0 Color junk h1 h0 hy (by omega),
          drawLine_ymajor P1 P0 Color junk h1 h0 (le_of_lt hy) (by omega)]
  refine ⟨hsame, ?_⟩
  rw [hsame]
  exact drawLine_points_junk P1 P0 Color Color junk junk' h1 h0

/-- C19 at the line between `(4,3)` and `(0,0)`. -/
theorem drawLine_symmetric_witness :
    inRange ⟨4, 3⟩ ∧ inRange ⟨0, 0⟩ ∧
    drawLine ⟨4, 3⟩ ⟨0, 0⟩ 7 0 = drawLine ⟨0, 0⟩ ⟨4, 3⟩ 7 0 ∧
    ((drawLine ⟨4, 3⟩ ⟨0, 0⟩ 7 0).calls.map fun c => c.P) =
      ((drawLine ⟨0, 0⟩ ⟨4, 3⟩ 7 1).calls.map fun c => c.P) :=
  ⟨by decide, by decide, drawLine_symmetric ⟨4, 3⟩ ⟨0, 0⟩ 7 0 1 (by decide) (by decide)⟩

/-! ## Further claims on the triangle scan-converter -/

/-- The values of `x` visited on a row are visited in increasing order. -/
theorem scanLoop_increasing (right : ℚ) (fuel : Nat) (x : Int) :
    (scanLoop right fuel x).Pairwise (fun a b => a < b) ∧ ∀ z ∈ scanLoop right fuel x, x ≤ z := by
  induction fuel generalizing x with
  | zero => simp [scanLoop]
  | succ n ih =>
    by_cases hx : (x : ℚ) < right
    · obtain ⟨ih1, ih2⟩ := ih (x + 1)
      simp only [scanLoop, hx, if_true, List.pairwise_cons, List.mem_cons]
      refine ⟨⟨?_, ih1⟩, ?_⟩
      · intro z hz
        have := ih2 z hz
        omega
      · rintro z (rfl | hz)
        · exact le_refl _
        · have := ih2 z hz
          omega
    · simp [scanLoop, hx]

/-- The fill loops visit the pixels in scan order: rows top-to-bottom, and left-to-right
within a row; this holds for any two walls. -/
theorem fillRows_scan_order (P0 P2 : Point2D) (x_left x_right : InterpResult) (Color : Nat)
    (junk : ℚ) :
    ((fillRows P0 P2 x_left x_right Color junk).map fun c => c.P).Pairwise scanBefore := by
  unfold fillRows
  rw [List.map_flatMap, List.pairwise_flatMap]
  constructor
  · intro k _
    simp only [List.map_map]
    rw [List.pairwise_map]
    apply List.Pairwise.imp _ (scanLoop_increasing _ _ _).1
    intro a b hab
    exact Or.inr ⟨rfl, hab⟩
  · apply List.Pairwise.imp _ (List.pairwise_lt_range _)
    intro k1 k2 hk p hp q hq
    simp only [List.map_map, List.mem_map, Function.comp_apply] at hp hq
    obtain ⟨a, _, rfl⟩ := hp
    obtain ⟨b, _, rfl⟩ := hq
    left
    show P0.y + (k1 : Int) < P0.y + (k2 : Int)
    omega

/-- The result of `drawTriangle` is either a failure with no call, or the pixels of the fill
loops between some pair of walls. -/
theorem drawTriangle_cases (P0 P1 P2 : Point2D) (Color : Nat) (junk : ℚ) :
    (drawTriangle P0 P1 P2 Color junk).calls = [] ∨
    ∃ l r, (drawTriangle P0 P1 P2 Color junk).calls =
      fillRows (sortByY P0 P1 P2).1 (sortByY P0 P1 P2).2.2 l r Color junk := by
  unfold drawTriangle drawSorted
  simp only []
  split
  · exact Or.inl rfl
  · split
    · exact Or.inl rfl
    · exact Or.inr ⟨_, _, rfl⟩

theorem scanBefore_irrefl (p : Point2D) : ¬ scanBefore p p := by
  unfold scanBefore
  omega

/-- C13: for every triangle, the sequence of points that `drawTriangle` passes to `setPixel`
is strictly increasing in the lexicographic `(y, x)` order (every earlier point is before
every later one), hence no point is passed twice. -/
theorem drawTriangle_scan_order (P0 P1 P2 : Point2D) (Color : Nat) (junk : ℚ) :
    ((drawTriangle P0 P1 P2 Color junk).calls.map fun c => c.P).Pairwise scanBefore ∧
    ((drawTriangle P0 P1 P2 Color junk).calls.map fun c => c.P).Nodup := by
  have hp : ((drawTriangle P0 P1 P2 Color junk).calls.map fun c => c.P).Pairwise scanBefore := by
    rcases drawTriangle_cases P0 P1 P2 Color junk with h | ⟨l, r, h⟩
    · rw [h]; exact List.Pairwise.nil
    · rw [h]; exact fillRows_scan_order _ _ _ _ _ _
  refine ⟨hp, ?_⟩
  apply List.Pairwise.imp _ hp
  intro a b hab heq
  rw [heq] at hab
  exact scanBefore_irrefl b hab

/-! ## Claim on the scan-conversion of the gradient triangle -/

/-- The fill loops of `drawGradientTriangle` visit the same points, in the same order, as the
fill loops of `drawTriangle` between the same walls. -/
theorem shadeRows_points (V0 V1 V2 : Vertex2D) (denom : Option ℚ) (x_left x_right : InterpResult)
    (Color : Nat) (junk : ℚ) :
    ((shadeRows V0 V1 V2 denom x_left x_right junk).map fun c => c.P) =
      ((fillRows V0.pos V2.pos x_left x_right Color junk).map fun c => c.P) := by
  unfold shadeRows fillRows
  rw [List.map_flatMap, List.map_flatMap]
  apply List.flatMap_congr
  intro k _
  simp only [List.map_map]
  rfl

/-- After the sort, `drawGradientTriangle` and `drawTriangle` fail on the same inputs and
otherwise visit the same points. -/
theorem shadeSorted_points (V0 V1 V2 : Vertex2D) (Color : Nat) (junk : ℚ) :
    ((shadeSorted V0 V1 V2 junk).calls.map fun c => c.P) =
      ((drawSorted V0.pos V1.pos V2.pos Color junk).calls.map fun c => c.P) := by
  unfold shadeSorted drawSorted edge01 edge02 edge12
  simp only []
  by_cases h1 : ((LinearInterpolation (toU16 V0.pos.y) (toU16 V0.pos.x) (toU16 V1.pos.y)
      (toU16 V1.pos.x)).values.isNone ||
      (LinearInterpolation (toU16 V0.pos.y) (toU16 V0.pos.x) (toU16 V2.pos.y)
        (toU16 V2.pos.x)).values.isNone ||
      (LinearInterpolation (toU16 V1.pos.y) (toU16 V1.pos.x) (toU16 V2.pos.y)
        (toU16 V2.pos.x)).values.isNone) = true
  · rw [if_pos h1, if_pos h1]
    rfl
  · rw [if_neg h1, if_neg h1]
    by_cases h2 : (concatenateInterpResult
        (LinearInterpolation (toU16 V0.pos.y) (toU16 V0.pos.x) (toU16 V1.pos.y) (toU16 V1.pos.x))
        (LinearInterpolation (toU16 V1.pos.y) (toU16 V1.pos.x) (toU16 V2.pos.y) (toU16 V2.pos.x))
        true junk).values.isNone = true
    · rw [if_pos h2, if_pos h2]
      rfl
    · rw [if_neg h2, if_neg h2]
      exact shadeRows_points _ _ _ _ _ _ _ _

/-- On every input and for the same memory contents, `drawGradientTriangle` passes to
`setPixel` the points that `drawTriangle` passes for the three vertex positions. -/
theorem drawGradientTriangle_points_eq (V0 V1 V2 : Vertex2D) (Color : Nat) (junk : ℚ) :
    ((drawGradientTriangle V0 V1 V2 junk).calls.map fun c => c.P) =
      ((drawTriangle V0.pos V1.pos V2.pos Color junk).calls.map fun c => c.P) := by
  obtain ⟨p0, p1, p2⟩ := sortVerticesByY_pos V0 V1 V2
  unfold drawGradientTriangle drawTriangle
  simp only []
  rw [shadeSorted_points _ _ _ Color junk, p0, p1, p2]

/-- C14: for all three vertices with in-range coordinates and any colours, the sequence of
points that `drawGradientTriangle` passes to `setPixel` is identical (same points, same
order) to the sequence that `drawTriangle` passes for the three vertex positions, whatever
the fill colour and whatever lies behind the buffers in either call. -/
theorem drawGradientTriangle_same_pixels (V0 V1 V2 : Vertex2D) (Color : Nat) (junk junk' : ℚ)
    (h0 : inRange V0.pos) (h1 : inRange V1.pos) (h2 : inRange V2.pos) :
    ((drawGradientTriangle V0 V1 V2 junk).calls.map fun c => c.P) =
      ((drawTriangle V0.pos V1.pos V2.pos Color junk').calls.map fun c => c.P) := by
  rw [drawGradientTriangle_points_eq V0 V1 V2 Color junk]
  exact drawTriangle_points_junk V0.pos V1.pos V2.pos Color Color junk junk' h0 h1 h2

/-- C14 at the vertices `(0,0)`, `(4,0)`, `(0,4)`. -/
theorem drawGradientTriangle_same_pixels_witness :
    inRange (⟨⟨0, 0⟩, 0xFF0000⟩ : Vertex2D).pos ∧ inRange (⟨⟨4, 0⟩, 0x00FF00⟩ : Vertex2D).pos ∧
    inRange (⟨⟨0, 4⟩, 0x0000FF⟩ : Vertex2D).pos ∧
    ((drawGradientTriangle ⟨⟨0, 0⟩, 0xFF0000⟩ ⟨⟨4, 0⟩, 0x00FF00⟩ ⟨⟨0, 4⟩, 0x0000FF⟩
      0).calls.map fun c => c.P) =
      ((drawTriangle (⟨⟨0, 0⟩, 0xFF0000⟩ : Vertex2D).pos (⟨⟨4, 0⟩, 0x00FF00⟩ : Vertex2D).pos
        (⟨⟨0, 4⟩, 0x0000FF⟩ : Vertex2D).pos 7 1).calls.map fun c => c.P) :=
  ⟨by decide, by decide, by decide,
    drawGradientTriangle_same_pixels ⟨⟨0, 0⟩, 0xFF0000⟩ ⟨⟨4, 0⟩, 0x00FF00⟩ ⟨⟨0, 4⟩, 0x0000FF⟩ 7 0 1
      (by decide) (by decide) (by decide)⟩

/-! ## Barycentric weights: lemmas -/

theorem calcTriangleArea_eq (a b c : Point2D) :
    calcTriangleArea a b c = ((wrapInt32 (signedArea2 a b c) : Int) : ℚ) / 2 := rfl

/-- A value that fits in 32 bits is not changed by 32-bit arithmetic. -/
theorem wrapInt32_of_fits (z : Int) (h : fitsInt32 z) : wrapInt32 z = z := by
  unfold fitsInt32 at h
  unfold wrapInt32
  omega

/-- Without overflow, `calcTriangleArea` is half the exact cross product. -/
theorem calcTriangleArea_of_fits (a b c : Point2D) (h : fitsInt32 (signedArea2 a b c)) :
    calcTriangleArea a b c = ((signedArea2 a b c : Int) : ℚ) / 2 := by
  rw [calcTriangleArea_eq, wrapInt32_of_fits _ h]

/-- A product of two integers of absolute value at most `32767`. -/
theorem mul_small_bound (u v : Int) (hu : -32767 ≤ u ∧ u ≤ 32767)
    (hv : -32767 ≤ v ∧ v ≤ 32767) :
    -1073676289 ≤ u * v ∧ u * v ≤ 1073676289 := by
  constructor
  · nlinarith [mul_nonneg (sub_nonneg.mpr hu.2) (sub_nonneg.mpr hv.1 : 0 ≤ v - -32767),
      mul_nonneg (sub_nonneg.mpr hu.1 : 0 ≤ u - -32767) (sub_nonneg.mpr hv.2)]
  · nlinarith [mul_nonneg (sub_nonneg.mpr hu.2) (sub_nonneg.mpr hv.2),
      mul_nonneg (sub_nonneg.mpr hu.1 : 0 ≤ u - -32767) (sub_nonneg.mpr hv.1 : 0 ≤ v - -32767)]

/-- For points with coordinates in `[0, 32767]` the cross product of `calcTriangleArea` does
not overflow. -/
theorem signedArea2_fits_of_small (a b c : Point2D) (ha : smallCoords a) (hb : smallCoords b)
    (hc : smallCoords c) : fitsInt32 (signedArea2 a b c) := by
  unfold smallCoords at ha hb hc
  have h1 := mul_small_bound (b.x - a.x) (c.y - a.y) ⟨by omega, by omega⟩ ⟨by omega, by omega⟩
  have h2 := mul_small_bound (b.y - a.y) (c.x - a.x) ⟨by omega, by omega⟩ ⟨by omega, by omega⟩
  unfold fitsInt32 signedArea2
  constructor
  · linarith [h1.1, h2.2]
  · linarith [h1.2, h2.1]

/-- For a triangle of non-zero area whose cross products do not overflow, both divisions of
`calcBarycentricCoords` are defined, and the weights are the area ratios
`Area(p,b,c) / Area(a,b,c)` and `Area(p,c,a) / Area(a,b,c)`. -/
theorem calcBarycentricCoords_of_ne (p a b c : Point2D) (h : signedArea2 a b c ≠ 0)
    (f1 : fitsInt32 (signedArea2 a b c)) (f2 : fitsInt32 (signedArea2 p b c))
    (f3 : fitsInt32 (signedArea2 p c a)) :
    calcBarycentricCoords p a b c =
      some ⟨((signedArea2 p b c : Int) : ℚ) / ((signedArea2 a b c : Int) : ℚ),
        ((signedArea2 p c a : Int) : ℚ) / ((signedArea2 a b c : Int) : ℚ)⟩ := by
  have hq : ((signedArea2 a b c : Int) : ℚ) ≠ 0 := by exact_mod_cast h
  have hq2 : ((signedArea2 a b c : Int) : ℚ) / 2 ≠ 0 := div_ne_zero hq (by norm_num)
  simp only [calcBarycentricCoords, fdiv, calcTriangleArea_of_fits _ _ _ f1,
    calcTriangleArea_of_fits _ _ _ f2, calcTriangleArea_of_fits _ _ _ f3, hq2, if_false]
  congr 2
  · field_simp
  · field_simp

/-- The three signed areas seen from a point add up to the signed area of the triangle. -/
theorem signedArea2_split (a b c p : Point2D) :
    signedArea2 p a b + signedArea2 p b c + signedArea2 p c a = signedArea2 a b c := by
  simp only [signedArea2]
  ring

/-- The reciprocal that `drawGradientTriangle` precomputes, for a triangle of non-zero
area. -/
theorem gradientDenom_of_ne (V0 V1 V2 : Vertex2D) (h : signedArea2 V0.pos V1.pos V2.pos ≠ 0) :
    fdiv 1 (gradientDivisor V0 V1 V2) =
      some (1 / ((signedArea2 V0.pos V1.pos V2.pos : Int) : ℚ)) := by
  have hq : ((signedArea2 V0.pos V1.pos V2.pos : Int) : ℚ) ≠ 0 := by exact_mod_cast h
  simp only [fdiv, gradientDivisor_eq, hq, if_false]

/-- The weights of the inner loop of `drawGradientTriangle` as area ratios: `alpha` is the
area of `(p, V2, V0)` and `beta` the area of `(p, V0, V1)`, each over the area of
`(V0, V1, V2)`. -/
theorem pixelWeights_eq_areas (V0 V1 V2 : Vertex2D) (x y : Int) :
    pixelWeights V0 V1 V2 (1 / ((signedArea2 V0.pos V1.pos V2.pos : Int) : ℚ)) x y =
      (((signedArea2 ⟨x, y⟩ V2.pos V0.pos : Int) : ℚ) /
          ((signedArea2 V0.pos V1.pos V2.pos : Int) : ℚ),
       ((signedArea2 ⟨x, y⟩ V0.pos V1.pos : Int) : ℚ) /
          ((signedArea2 V0.pos V1.pos V2.pos : Int) : ℚ)) := by
  simp only [pixelWeights, signedArea2, Prod.mk.injEq]
  constructor
  · push_cast
    ring
  · push_cast
    ring

/-! ## Claims on the barycentric weights -/

/-- C20, as stated, fails: for `a = (0,0)`, `b = (65535,0)`, `c = (0,65535)` (non-zero
signed area) and `p = (1,1)` the cross products `65535 * 65535` and `65534 * 65534 - 1`
overflow the 32-bit `int` of `calcTriangleArea` and come out as `-131071` and `-262141`;
the weights returned are `(262141/131071, -65535/131071)`, about `(2, -1/2)`, and they do not
reconstruct `p` in either coordinate. -/
theorem calcBarycentricCoords_overflow_counterexample :
    signedArea2 ⟨0, 0⟩ ⟨65535, 0⟩ ⟨0, 65535⟩ ≠ 0 ∧
    calcTriangleArea ⟨0, 0⟩ ⟨65535, 0⟩ ⟨0, 65535⟩ = -131071 / 2 ∧
    calcBarycentricCoords ⟨1, 1⟩ ⟨0, 0⟩ ⟨65535, 0⟩ ⟨0, 65535⟩ =
      some ⟨262141 / 131071, -65535 / 131071⟩ ∧
    ¬ ((262141 / 131071 : ℚ) * (0 : ℚ) + (-65535 / 131071 : ℚ) * (65535 : ℚ) +
        (1 - (262141 / 131071 : ℚ) - (-65535 / 131071 : ℚ)) * (0 : ℚ) = (1 : ℚ)) ∧
    ¬ ((262141 / 131071 : ℚ) * (0 : ℚ) + (-65535 / 131071 : ℚ) * (0 : ℚ) +
        (1 - (262141 / 131071 : ℚ) - (-65535 / 131071 : ℚ)) * (65535 : ℚ) = (1 : ℚ)) := by
  refine ⟨by decide, by decide!, by decide!, by norm_num, by norm_num⟩

/-- C20, amended: for every triangle `a, b, c` of non-zero signed area and every point `p`
such that the three cross products that `calcTriangleArea` computes in 32-bit `int`, those of
`(a, b, c)`, `(p, b, c)` and `(p, c, a)`, do not overflow, `calcBarycentricCoords(p, a, b, c)`
returns weights `(alpha, beta)` that reconstruct `p`:
`alpha*a + beta*b + (1 - alpha - beta)*c = p` in both coordinates, in exact arithmetic; and
`p = a` gives `(1, 0)`, `p = b` gives `(0, 1)`, `p = c` gives `(0, 0)`. -/
theorem calcBarycentricCoords_reconstructs (p a b c : Point2D) (h : signedArea2 a b c ≠ 0)
    (f1 : fitsInt32 (signedArea2 a b c)) (f2 : fitsInt32 (signedArea2 p b c))
    (f3 : fitsInt32 (signedArea2 p c a)) :
    (∃ w, calcBarycentricCoords p a b c = some w ∧
      w.alpha * (a.x : ℚ) + w.beta * (b.x : ℚ) + (1 - w.alpha - w.beta) * (c.x : ℚ) = (p.x : ℚ) ∧
      w.alpha * (a.y : ℚ) + w.beta * (b.y : ℚ) + (1 - w.alpha - w.beta) * (c.y : ℚ) = (p.y : ℚ)) ∧
    calcBarycentricCoords a a b c = some ⟨1, 0⟩ ∧
    calcBarycentricCoords b a b c = some ⟨0, 1⟩ ∧
    calcBarycentricCoords c a b c = some ⟨0, 0⟩ := by
  have hq : ((signedArea2 a b c : Int) : ℚ) ≠ 0 := by exact_mod_cast h
  have hD : ((signedArea2 a b c : Int) : ℚ) =
      ((b.x : ℚ) - a.x) * ((c.y : ℚ) - a.y) - ((b.y : ℚ) - a.y) * ((c.x : ℚ) - a.x) := by
    simp only [signedArea2]; push_cast; ring
  have hz : fitsInt32 0 := by decide
  refine ⟨⟨_, calcBarycentricCoords_of_ne p a b c h f1 f2 f3, ?_, ?_⟩, ?_, ?_, ?_⟩
  · simp only []
    field_simp
    rw [hD]
    simp only [signedArea2]
    push_cast
    ring
  · simp only []
    field_simp
    rw [hD]
    simp only [signedArea2]
    push_cast
    ring
  · have h1 : signedArea2 a c a = 0 := by simp only [signedArea2]; ring
    rw [calcBarycentricCoords_of_ne a a b c h f1 f1 (by rw [h1]; exact hz)]
    rw [h1, div_self hq]
    simp
  · have h1 : signedArea2 b b c = 0 := by simp only [signedArea2]; ring
    have h2 : signedArea2 b c a = signedArea2 a b c := by simp only [signedArea2]; ring
    rw [calcBarycentricCoords_of_ne b a b c h f1 (by rw [h1]; exact hz) (by rw [h2]; exact f1)]
    rw [h1, h2, div_self hq]
    simp
  · have h1 : signedArea2 c b c = 0 := by simp only [signedArea2]; ring
    have h2 : signedArea2 c c a = 0 := by simp only [signedArea2]; ring
    rw [calcBarycentricCoords_of_ne c a b c h f1 (by rw [h1]; exact hz) (by rw [h2]; exact hz)]
    rw [h1, h2]
    simp

/-- The amended C20 at the triangle `(0,0)`, `(4,0)`, `(0,4)` and the point `(1,1)`. -/
theorem calcBarycentricCoords_reconstructs_witness :
    signedArea2 ⟨0, 0⟩ ⟨4, 0⟩ ⟨0, 4⟩ ≠ 0 ∧
    fitsInt32 (signedArea2 ⟨0, 0⟩ ⟨4, 0⟩ ⟨0, 4⟩) ∧
    fitsInt32 (signedArea2 ⟨1, 1⟩ ⟨4, 0⟩ ⟨0, 4⟩) ∧
    fitsInt32 (signedArea2 ⟨1, 1⟩ ⟨0, 4⟩ ⟨0, 0⟩) ∧
    (∃ w, calcBarycentricCoords ⟨1, 1⟩ ⟨0, 0⟩ ⟨4, 0⟩ ⟨0, 4⟩ = some w ∧
      w.alpha * (((⟨0, 0⟩ : Point2D).x : Int) : ℚ) + w.beta * (((⟨4, 0⟩ : Point2D).x : Int) : ℚ) +
        (1 - w.alpha - w.beta) * (((⟨0, 4⟩ : Point2D).x : Int) : ℚ) =
          (((⟨1, 1⟩ : Point2D).x : Int) : ℚ) ∧
      w.alpha * (((⟨0, 0⟩ : Point2D).y : Int) : ℚ) + w.beta * (((⟨4, 0⟩ : Point2D).y : Int) : ℚ) +
        (1 - w.alpha - w.beta) * (((⟨0, 4⟩ : Point2D).y : Int) : ℚ) =
          (((⟨1, 1⟩ : Point2D).y : Int) : ℚ)) ∧
    calcBarycentricCoords ⟨0, 0⟩ ⟨0, 0⟩ ⟨4, 0⟩ ⟨0, 4⟩ = some ⟨1, 0⟩ ∧
    calcBarycentricCoords ⟨4, 0⟩ ⟨0, 0⟩ ⟨4, 0⟩ ⟨0, 4⟩ = some ⟨0, 1⟩ ∧
    calcBarycentricCoords ⟨0, 4⟩ ⟨0, 0⟩ ⟨4, 0⟩ ⟨0, 4⟩ = some ⟨0, 0⟩ :=
  ⟨by decide, by decide, by decide, by decide,
    calcBarycentricCoords_reconstructs ⟨1, 1⟩ ⟨0, 0⟩ ⟨4, 0⟩ ⟨0, 4⟩ (by decide) (by decide)
      (by decide) (by decide)⟩

/-- A ratio of a part to a whole of the same sign lies in `[0, 1]`. -/
theorem ratio_bounds (A D : ℚ) (hD : D ≠ 0) (h : (0 ≤ A ∧ A ≤ D) ∨ (D ≤ A ∧ A ≤ 0)) :
    0 ≤ A / D ∧ A / D ≤ 1 := by
  rcases h with ⟨h1, h2⟩ | ⟨h1, h2⟩
  · have hpos : 0 < D := lt_of_le_of_ne (le_trans h1 h2) (Ne.symm hD)
    exact ⟨div_nonneg h1 (le_of_lt hpos), (div_le_one hpos).mpr h2⟩
  · have hneg : D < 0 := lt_of_le_of_ne (le_trans h1 h2) hD
    constructor
    · exact div_nonneg_of_nonpos h2 (le_of_lt hneg)
    · rw [div_le_one_of_neg hneg]
      exact h1

/-- C15: for every triangle `V0, V1, V2` of non-zero signed area and every integer point
`(x, y)` in the closed triangle, the reciprocal `denom` of the inner loop is defined, and the
weights `alpha = (px*v1y - py*v1x)*denom`, `beta = (py*v0x - px*v0y)*denom` and
`gamma = 1 - alpha - beta` all lie in `[0, 1]` and add up to `1`. -/
theorem pixelWeights_bounds (V0 V1 V2 : Vertex2D) (x y : Int)
    (hD : signedArea2 V0.pos V1.pos V2.pos ≠ 0)
    (hin : insideClosed V0.pos V1.pos V2.pos ⟨x, y⟩) :
    ∃ denom, fdiv 1 (gradientDivisor V0 V1 V2) = some denom ∧
      0 ≤ (pixelWeights V0 V1 V2 denom x y).1 ∧ (pixelWeights V0 V1 V2 denom x y).1 ≤ 1 ∧
      0 ≤ (pixelWeights V0 V1 V2 denom x y).2 ∧ (pixelWeights V0 V1 V2 denom x y).2 ≤ 1 ∧
      0 ≤ 1 - (pixelWeights V0 V1 V2 denom x y).1 - (pixelWeights V0 V1 V2 denom x y).2 ∧
      1 - (pixelWeights V0 V1 V2 denom x y).1 - (pixelWeights V0 V1 V2 denom x y).2 ≤ 1 ∧
      (pixelWeights V0 V1 V2 denom x y).1 + (pixelWeights V0 V1 V2 denom x y).2 +
        (1 - (pixelWeights V0 V1 V2 denom x y).1 - (pixelWeights V0 V1 V2 denom x y).2) = 1 := by
  refine ⟨_, gradientDenom_of_ne V0 V1 V2 hD, ?_⟩
  rw [pixelWeights_eq_areas]
  simp only []
  have hq : ((signedArea2 V0.pos V1.pos V2.pos : Int) : ℚ) ≠ 0 := by exact_mod_cast hD
  have hsplit := signedArea2_split V0.pos V1.pos V2.pos ⟨x, y⟩
  have hsq : ((signedArea2 ⟨x, y⟩ V0.pos V1.pos : Int) : ℚ) +
      ((signedArea2 ⟨x, y⟩ V1.pos V2.pos : Int) : ℚ) +
      ((signedArea2 ⟨x, y⟩ V2.pos V0.pos : Int) : ℚ) =
      ((signedArea2 V0.pos V1.pos V2.pos : Int) : ℚ) := by exact_mod_cast hsplit
  have hgamma : 1 - ((signedArea2 ⟨x, y⟩ V2.pos V0.pos : Int) : ℚ) /
        ((signedArea2 V0.pos V1.pos V2.pos : Int) : ℚ) -
      ((signedArea2 ⟨x, y⟩ V0.pos V1.pos : Int) : ℚ) /
        ((signedArea2 V0.pos V1.pos V2.pos : Int) : ℚ) =
      ((signedArea2 ⟨x, y⟩ V1.pos V2.pos : Int) : ℚ) /
        ((signedArea2 V0.pos V1.pos V2.pos : Int) : ℚ) := by
    field_simp
    linarith
  have hcases : ∀ A : ℚ,
      (A = ((signedArea2 ⟨x, y⟩ V0.pos V1.pos : Int) : ℚ) ∨
       A = ((signedArea2 ⟨x, y⟩ V1.pos V2.pos : Int) : ℚ) ∨
       A = ((signedArea2 ⟨x, y⟩ V2.pos V0.pos : Int) : ℚ)) →
      0 ≤ A / ((signedArea2 V0.pos V1.pos V2.pos : Int) : ℚ) ∧
        A / ((signedArea2 V0.pos V1.pos V2.pos : Int) : ℚ) ≤ 1 := by
    intro A hA
    apply ratio_bounds A _ hq
    rcases hin with ⟨i1, i2, i3⟩ | ⟨i1, i2, i3⟩
    · left
      have j1 : (0 : ℚ) ≤ ((signedArea2 ⟨x, y⟩ V0.pos V1.pos : Int) : ℚ) := by exact_mod_cast i1
      have j2 : (0 : ℚ) ≤ ((signedArea2 ⟨x, y⟩ V1.pos V2.pos : Int) : ℚ) := by exact_mod_cast i2
      have j3 : (0 : ℚ) ≤ ((signedArea2 ⟨x, y⟩ V2.pos V0.pos : Int) : ℚ) := by exact_mod_cast i3
      rcases hA with rfl | rfl | rfl <;> constructor <;> linarith
    · right
      have j1 : ((signedArea2 ⟨x, y⟩ V0.pos V1.pos : Int) : ℚ) ≤ 0 := by exact_mod_cast i1
      have j2 : ((signedArea2 ⟨x, y⟩ V1.pos V2.pos : Int) : ℚ) ≤ 0 := by exact_mod_cast i2
      have j3 : ((signedArea2 ⟨x, y⟩ V2.pos V0.pos : Int) : ℚ) ≤ 0 := by exact_mod_cast i3
      rcases hA with rfl | rfl | rfl <;> constructor <;> linarith
  rw [hgamma]
  refine ⟨(hcases _ (Or.inr (Or.inr rfl))).1, (hcases _ (Or.inr (Or.inr rfl))).2,
    (hcases _ (Or.inl rfl)).1, (hcases _ (Or.inl rfl)).2,
    (hcases _ (Or.inr (Or.inl rfl))).1, (hcases _ (Or.inr (Or.inl rfl))).2, ?_⟩
  field_simp
  linarith

/-- C15 at the triangle `(0,0)`, `(4,0)`, `(0,4)` and the point `(1,1)`. -/
theorem pixelWeights_bounds_witness :
    signedArea2 (⟨⟨0, 0⟩, 0xFF0000⟩ : Vertex2D).pos (⟨⟨4, 0⟩, 0x00FF00⟩ : Vertex2D).pos
      (⟨⟨0, 4⟩, 0x0000FF⟩ : Vertex2D).pos ≠ 0 ∧
    insideClosed (⟨⟨0, 0⟩, 0xFF0000⟩ : Vertex2D).pos (⟨⟨4, 0⟩, 0x00FF00⟩ : Vertex2D).pos
      (⟨⟨0, 4⟩, 0x0000FF⟩ : Vertex2D).pos ⟨1, 1⟩ ∧
    ∃ denom, fdiv 1 (gradientDivisor ⟨⟨0, 0⟩, 0xFF0000⟩ ⟨⟨4, 0⟩, 0x00FF00⟩
        ⟨⟨0, 4⟩, 0x0000FF⟩) = some denom ∧
      0 ≤ (pixelWeights ⟨⟨0, 0⟩, 0xFF0000⟩ ⟨⟨4, 0⟩, 0x00FF00⟩ ⟨⟨0, 4⟩, 0x0000FF⟩ denom 1 1).1 ∧
      (pixelWeights ⟨⟨0, 0⟩, 0xFF0000⟩ ⟨⟨4, 0⟩, 0x00FF00⟩ ⟨⟨0, 4⟩, 0x0000FF⟩ denom 1 1).1 ≤ 1 ∧
      0 ≤ (pixelWeights ⟨⟨0, 0⟩, 0xFF0000⟩ ⟨⟨4, 0⟩, 0x00FF00⟩ ⟨⟨0, 4⟩, 0x0000FF⟩ denom 1 1).2 ∧
      (pixelWeights ⟨⟨0, 0⟩, 0xFF0000⟩ ⟨⟨4, 0⟩, 0x00FF00⟩ ⟨⟨0, 4⟩, 0x0000FF⟩ denom 1 1).2 ≤ 1 ∧
      0 ≤ 1 -
        (pixelWeights ⟨⟨0, 0⟩, 0xFF0000⟩ ⟨⟨4, 0⟩, 0x00FF00⟩ ⟨⟨0, 4⟩, 0x0000FF⟩ denom 1 1).1 -
        (pixelWeights ⟨⟨0, 0⟩, 0xFF0000⟩ ⟨⟨4, 0⟩, 0x00FF00⟩ ⟨⟨0, 4⟩, 0x0000FF⟩ denom 1 1).2 ∧
      1 - (pixelWeights ⟨⟨0, 0⟩, 0xFF0000⟩ ⟨⟨4, 0⟩, 0x00FF00⟩ ⟨⟨0, 4⟩, 0x0000FF⟩ denom 1 1).1 -
        (pixelWeights ⟨⟨0, 0⟩, 0xFF0000⟩ ⟨⟨4, 0⟩, 0x00FF00⟩ ⟨⟨0, 4⟩, 0x0000FF⟩ denom 1 1).2 ≤ 1 ∧
      (pixelWeights ⟨⟨0, 0⟩, 0xFF0000⟩ ⟨⟨4, 0⟩, 0x00FF00⟩ ⟨⟨0, 4⟩, 0x0000FF⟩ denom 1 1).1 +
        (pixelWeights ⟨⟨0, 0⟩, 0xFF0000⟩ ⟨⟨4, 0⟩, 0x00FF00⟩ ⟨⟨0, 4⟩, 0x0000FF⟩ denom 1 1).2 +
        (1 -
          (pixelWeights ⟨⟨0, 0⟩, 0xFF0000⟩ ⟨⟨4, 0⟩, 0x00FF00⟩ ⟨⟨0, 4⟩, 0x0000FF⟩ denom 1 1).1 -
          (pixelWeights ⟨⟨0, 0⟩, 0xFF0000⟩ ⟨⟨4, 0⟩, 0x00FF00⟩ ⟨⟨0, 4⟩, 0x0000FF⟩ denom 1 1).2) =
        1 :=
  ⟨by decide, by decide,
    pixelWeights_bounds ⟨⟨0, 0⟩, 0xFF0000⟩ ⟨⟨4, 0⟩, 0x00FF00⟩ ⟨⟨0, 4⟩, 0x0000FF⟩ 1 1 (by decide)
      (by decide)⟩

/-- The weights of the inner loop of `drawGradientTriangle` in terms of the weights
`(alpha, beta)` of `calcBarycentricCoords`, when the cross products of the latter do not
overflow: the loop's `alpha` is the other's `beta`, and the loop's `beta` is the other's
`1 - alpha - beta`. -/
theorem pixelWeights_vs_calc (V0 V1 V2 : Vertex2D) (x y : Int)
    (hD : signedArea2 V0.pos V1.pos V2.pos ≠ 0)
    (f1 : fitsInt32 (signedArea2 V0.pos V1.pos V2.pos))
    (f2 : fitsInt32 (signedArea2 ⟨x, y⟩ V1.pos V2.pos))
    (f3 : fitsInt32 (signedArea2 ⟨x, y⟩ V2.pos V0.pos)) :
    ∃ w denom, calcBarycentricCoords ⟨x, y⟩ V0.pos V1.pos V2.pos = some w ∧
      fdiv 1 (gradientDivisor V0 V1 V2) = some denom ∧
      pixelWeights V0 V1 V2 denom x y = (w.beta, 1 - w.alpha - w.beta) := by
  refine ⟨_, _, calcBarycentricCoords_of_ne ⟨x, y⟩ V0.pos V1.pos V2.pos hD f1 f2 f3,
    gradientDenom_of_ne V0 V1 V2 hD, ?_⟩
  rw [pixelWeights_eq_areas]
  simp only [Prod.mk.injEq, true_and]
  have hq : ((signedArea2 V0.pos V1.pos V2.pos : Int) : ℚ) ≠ 0 := by exact_mod_cast hD
  have hsplit := signedArea2_split V0.pos V1.pos V2.pos ⟨x, y⟩
  have hsq : ((signedArea2 ⟨x, y⟩ V0.pos V1.pos : Int) : ℚ) +
      ((signedArea2 ⟨x, y⟩ V1.pos V2.pos : Int) : ℚ) +
      ((signedArea2 ⟨x, y⟩ V2.pos V0.pos : Int) : ℚ) =
      ((signedArea2 V0.pos V1.pos V2.pos : Int) : ℚ) := by exact_mod_cast hsplit
  field_simp
  linarith

/-- C17, the code at the failing input: for `V0 = (0,0)`, `V1 = (4,0)`, `V2 = (0,4)` the
precomputed reciprocal is `1/16`.  At the pixel `(1,1)` the inner loop computes the weights
`(1/4, 1/4)` where `calcBarycentricCoords` gives the area ratios `(1/2, 1/4)`, and at the
position of `V0` it computes `(0, 0)` where `calcBarycentricCoords` gives `(1, 0)`.  The pixel
`(1,1)` is one that `drawGradientTriangle` shades, with the colour `0x3F3F7F` (mostly blue,
the colour of `V2`) instead of the `0x7F3F3F` that the area ratios give. -/
theorem pixelWeights_not_area_ratios :
    fdiv 1 (gradientDivisor ⟨⟨0, 0⟩, 0xFF0000⟩ ⟨⟨4, 0⟩, 0x00FF00⟩ ⟨⟨0, 4⟩, 0x0000FF⟩) =
      some (1 / 16) ∧
    pixelWeights ⟨⟨0, 0⟩, 0xFF0000⟩ ⟨⟨4, 0⟩, 0x00FF00⟩ ⟨⟨0, 4⟩, 0x0000FF⟩ (1 / 16) 1 1 =
      (1 / 4, 1 / 4) ∧
    calcBarycentricCoords ⟨1, 1⟩ ⟨0, 0⟩ ⟨4, 0⟩ ⟨0, 4⟩ = some ⟨1 / 2, 1 / 4⟩ ∧
    pixelWeights ⟨⟨0, 0⟩, 0xFF0000⟩ ⟨⟨4, 0⟩, 0x00FF00⟩ ⟨⟨0, 4⟩, 0x0000FF⟩ (1 / 16) 0 0 =
      (0, 0) ∧
    calcBarycentricCoords ⟨0, 0⟩ ⟨0, 0⟩ ⟨4, 0⟩ ⟨0, 4⟩ = some ⟨1, 0⟩ ∧
    (⟨⟨1, 1⟩, some 0x3F3F7F⟩ : ShadedCall) ∈
      (drawGradientTriangle ⟨⟨0, 0⟩, 0xFF0000⟩ ⟨⟨4, 0⟩, 0x00FF00⟩ ⟨⟨0, 4⟩, 0x0000FF⟩ 0).calls ∧
    createRGB (toU8 ((1 / 2 : ℚ) * 255)) (toU8 ((1 / 4 : ℚ) * 255)) (toU8 ((1 / 4 : ℚ) * 255)) =
      0x7F3F3F := by
  refine ⟨by decide!, by decide!, by decide!, by decide!, by decide!, by decide!, by decide!⟩

/-! ## Memory accesses of the concatenation -/

/-- The copy iterations listed by `copySteps` are the ones the two loops of
`concatenateInterpResult` perform: replaying them on the freshly allocated buffer gives the
buffer that the function returns. -/
theorem copySteps_replay (first second : InterpResult) (junk : ℚ) (buf : List ℚ) :
    (copySteps first second).foldl (runCopyStep first second junk) buf =
      copySecond first second junk (copyFirst first junk buf) := by
  simp only [copySteps, List.foldl_append, List.foldl_map, runCopyStep, copySecond, copyFirst,
    Bool.false_eq_true, if_false, if_true]

/-- The values returned by `concatenateInterpResult` are those obtained by performing the
accesses of `concatAccesses` on the allocated buffer (`NULL` when the allocation fails). -/
theorem concatenateInterpResult_replay (first second : InterpResult) (removeLast : Bool)
    (junk : ℚ) :
    (concatenateInterpResult first second removeLast junk).values =
      (mallocFloats
        (if removeLast then first.size + second.size - 1 else first.size + second.size)
        junk).map fun buf =>
          (concatAccesses first second removeLast).foldl (runCopyStep first second junk) buf := by
  unfold concatenateInterpResult concatAccesses mallocFloats
  simp only []
  generalize (if removeLast = true then first.size + second.size - 1
    else first.size + second.size) = sz
  by_cases h : sz < 0
  · simp only [h, if_true, Option.map_none']
  · simp only [h, if_false, Option.map_some', copySteps_replay]

/-- The accesses of a call whose result can be allocated are the copy iterations. -/
theorem concatAccesses_of_nonneg (first second : InterpResult) (removeLast : Bool)
    (h : 0 ≤ (if removeLast then first.size + second.size - 1 else first.size + second.size)) :
    concatAccesses first second removeLast = copySteps first second := by
  unfold concatAccesses mallocFloats
  rw [if_neg (not_lt.mpr h)]

/-! ## Claim on the memory accesses of the concatenation -/

/-- C18, the code at the failing input.  Joining `first = [0,1,2]` and `second = [2,3,4]` with
`removeLast` performs seven copy iterations; the fourth reads `first.values[3]`, where
`first.size = 3`, and the last writes `result.values[5]`, where `result.size = 5`.  In general,
without `removeLast` the first loop always reads `first.values[first.size]`, and with
`removeLast` and a non-empty `second` it does so too and the second loop ends with a write to
`result.values[result.size]`. -/
theorem concatenateInterpResult_out_of_bounds (f s : List ℚ) (b : ℚ) :
    concatAccesses ⟨some [0, 1, 2], 3⟩ ⟨some [2, 3, 4], 3⟩ true =
      [⟨false, 0, 0⟩, ⟨false, 1, 1⟩, ⟨false, 2, 2⟩, ⟨false, 3, 3⟩, ⟨true, 0, 3⟩, ⟨true, 1, 4⟩,
        ⟨true, 2, 5⟩] ∧
    (concatenateInterpResult ⟨some [0, 1, 2], 3⟩ ⟨some [2, 3, 4], 3⟩ true 0).size = 5 ∧
    ¬ (∀ a ∈ concatAccesses ⟨some [0, 1, 2], 3⟩ ⟨some [2, 3, 4], 3⟩ true,
        (a.fromSecond = false → a.src < 3) ∧ (a.fromSecond = true → a.src < 3) ∧ a.dst < 5) ∧
    (⟨false, f.length, f.length⟩ : CopyStep) ∈
      concatAccesses ⟨some f, (f.length : Int)⟩ ⟨some s, (s.length : Int)⟩ false ∧
    (⟨false, f.length, f.length⟩ : CopyStep) ∈
      concatAccesses ⟨some f, (f.length : Int)⟩ ⟨some (b :: s), ((b :: s).length : Int)⟩ true ∧
    (⟨true, s.length, f.length + s.length⟩ : CopyStep) ∈
      concatAccesses ⟨some f, (f.length : Int)⟩ ⟨some (b :: s), ((b :: s).length : Int)⟩ true ∧
    (concatenateInterpResult ⟨some f, (f.length : Int)⟩
      ⟨some (b :: s), ((b :: s).length : Int)⟩ true 0).size = ((f.length + s.length : Nat) : Int)
          := by
  refine ⟨by decide, by decide, ?_, ?_, ?_, ?_, ?_⟩
  · intro h
    have h3 := (h ⟨false, 3, 3⟩ (by decide)).1 rfl
    exact absurd h3 (by decide)
  · rw [concatAccesses_of_nonneg _ _ _ (by simp only [Bool.false_eq_true, if_false]; omega)]
    simp only [copySteps, List.mem_append, List.mem_map, List.mem_range, Int.toNat_ofNat]
    exact Or.inl ⟨f.length, by omega, rfl⟩
  · rw [concatAccesses_of_nonneg _ _ _ (by
      simp only [if_true, List.length_cons]; push_cast; omega)]
    simp only [copySteps, List.mem_append, List.mem_map, List.mem_range, Int.toNat_ofNat]
    exact Or.inl ⟨f.length, by omega, rfl⟩
  · rw [concatAccesses_of_nonneg _ _ _ (by
      simp only [if_true, List.length_cons]; push_cast; omega)]
    simp only [copySteps, List.mem_append, List.mem_map, List.mem_range, Int.toNat_ofNat,
      List.length_cons]
    exact Or.inr ⟨s.length, by omega, rfl⟩
  · rw [concatenateInterpResult_size]
    simp only [if_true, List.length_cons]
    push_cast
    omega

end Rasterizer
